import Mathlib

/-!
Shallow embedding of `sudoku.py` (repository maierluk94/Sudoku).

The program stores a 9×9 integer board (`numpy` array, 0 = empty cell),
a tuple `given_numbers_indices` of the positions that were non-zero at
construction time, and a variant (class `Sudoku` = standard rules, class
`DiagonalSudoku` additionally checks the two main diagonals).

Modelling conventions:
* Python integers are `Int` (they are signed and unbounded).
* The board is `List (List Int)`; `numpy` indexing `board[r][c]` with
  `-9 ≤ r, c ≤ 8` wraps negative indices, which we totalise as
  `(· % 9).toNat` (`Int.emod` is non-negative for the positive modulus 9,
  so it coincides with Python's `%`). Indices outside `[-9, 8]` raise in
  `numpy`; the wrap is our totalisation of that error case.
* `random.randint(0, 8)` draws are an explicit stream `Nat → Nat × Nat`
  (a row/column pair per loop iteration), reduced mod 9; the result of
  `random.shuffle` is an explicit `perm` field.
* Unbounded `while` loops take a fuel parameter and return `none` when
  the fuel runs out; `some` results are the values the program returns.
-/

set_option autoImplicit false

namespace Sudoku

/-- A board: the 9×9 integer matrix `self.board`. -/
abbrev Board := List (List Int)

/-- A position `(row, column)`. -/
abbrev Pos := Int × Int

/-- The two rule sets of the program: class `Sudoku` ("standard") and class
`DiagonalSudoku` ("diagonal"). -/
inductive Variant where
  | standard
  | diagonal
  deriving DecidableEq, Repr

/-- The mutable state of a `Sudoku` object: `self.board`,
`self.given_numbers_indices` and the class (variant) of the object. -/
structure State where
  board : Board
  given : List Pos
  variant : Variant
  deriving DecidableEq, Repr

/-- `numpy` index wrap: index `i` of an axis of length 9
(valid Python indices `-9 ≤ i ≤ 8` address `(i % 9)`). -/
def idx9 (i : Int) : Nat := (i % 9).toNat

/-- Row `r` of the board (`self.board[row]`). -/
def rowList (b : Board) (r : Int) : List Int := (b[idx9 r]?).getD []

/-- Cell access `self.board[row][column]`. -/
def getCell (b : Board) (r c : Int) : Int := ((rowList b r)[idx9 c]?).getD 0

/-- Column `c` of the board (`self.board[:, column]`). -/
def colList (b : Board) (c : Int) : List Int :=
  b.map (fun row => (row[idx9 c]?).getD 0)

/-- Cell update `self.board[row][column] = v`. -/
def setCell (b : Board) (r c : Int) (v : Int) : Board :=
  b.set (idx9 r) ((rowList b r).set (idx9 c) v)

/-- The 3×3 box containing `(r, c)` (`Sudoku._get_region`), flattened
row-major: `self.board[region_row:region_row+3, region_column:region_column+3]`
with `region_row = row - row % 3`, `region_column = column - column % 3`. -/
def regionCells (b : Board) (r c : Int) : List Int :=
  let rr := r - r % 3
  let cc := c - c % 3
  [getCell b rr cc, getCell b rr (cc + 1), getCell b rr (cc + 2),
   getCell b (rr + 1) cc, getCell b (rr + 1) (cc + 1), getCell b (rr + 1) (cc + 2),
   getCell b (rr + 2) cc, getCell b (rr + 2) (cc + 1), getCell b (rr + 2) (cc + 2)]

/-- Index of `(r, c)` inside its flattened 3×3 region: `(row % 3, column % 3)`. -/
def regionIdx (r c : Int) : Nat := (r % 3).toNat * 3 + (c % 3).toNat

/-- `np.diagonal(board)`: the main diagonal entries `board[i][i]`. -/
def diagList (b : Board) : List Int :=
  (List.range 9).map (fun (i : Nat) => getCell b (i : Int) (i : Int))

/-- `np.diagonal(np.flipud(board))`: the anti-diagonal entries `board[8-i][i]`. -/
def antiDiagList (b : Board) : List Int :=
  (List.range 9).map (fun (i : Nat) => getCell b (8 - (i : Int)) (i : Int))

/-- `np.count_nonzero(l == v)`: how many entries of `l` equal `v`. -/
def countEq (v : Int) (l : List Int) : Nat := l.countP (fun x => x == v)

/-- `Sudoku._is_move_legal` (standard rules).  The candidate is placed on a
copy of the board and of the region; a count `> 1` in the row, the column or
the region of the hypothetical board voids legality.  Note the source rejects
`number > 9` but has no check for negative numbers. -/
def isMoveLegalStd (s : State) (number row col : Int) : Bool :=
  if (row, col) ∈ s.given then false
  else if number = 0 then true
  else if 9 < number then false
  else if 1 < countEq number (rowList (setCell s.board row col number) row) then false
  else if 1 < countEq number (colList (setCell s.board row col number) col) then false
  else if 1 < countEq number ((regionCells s.board row col).set (regionIdx row col) number) then false
  else true

/-- `DiagonalSudoku._is_move_legal`: the same checks, plus a count over the
full main diagonal and the full anti-diagonal of the hypothetical board
(the source repeats the standard checks verbatim and appends the two
diagonal checks, unconditionally on the position). -/
def isMoveLegalDiag (s : State) (number row col : Int) : Bool :=
  if (row, col) ∈ s.given then false
  else if number = 0 then true
  else if 9 < number then false
  else if 1 < countEq number (rowList (setCell s.board row col number) row) then false
  else if 1 < countEq number (colList (setCell s.board row col number) col) then false
  else if 1 < countEq number ((regionCells s.board row col).set (regionIdx row col) number) then false
  else if 1 < countEq number (diagList (setCell s.board row col number)) then false
  else if 1 < countEq number (antiDiagList (setCell s.board row col number)) then false
  else true

/-- Dynamic dispatch of `_is_move_legal` on the class of the object. -/
def isMoveLegal (s : State) (number row col : Int) : Bool :=
  match s.variant with
  | .standard => isMoveLegalStd s number row col
  | .diagonal => isMoveLegalDiag s number row col

/-- `Sudoku.write`: mutate the cell and return `True` iff the move is legal,
otherwise leave the state unchanged and return `False`. -/
def write (s : State) (number row col : Int) : Bool × State :=
  if isMoveLegal s number row col then
    (true, { s with board := setCell s.board row col number })
  else
    (false, s)

/-- `Sudoku.is_solved`: `True` iff no cell holds 0. -/
def isSolved (s : State) : Bool := !(s.board.any (fun row => row.any (· == 0)))

/-- The shape assertion of `Sudoku.__init__`: `board.shape == (9, 9)`. -/
def shapeOK (b : Board) : Bool := b.length == 9 && b.all (fun row => row.length == 9)

/-- `np.nonzero(self.board)` zipped into row-major position pairs:
the positions whose entry is non-zero. -/
def givenIndices (b : Board) : List Pos :=
  ((List.range 9).map (fun (i : Nat) =>
    (List.range 9).filterMap (fun (j : Nat) =>
      if getCell b (i : Int) (j : Int) ≠ 0 then some ((i : Int), (j : Int)) else none))).flatten

/-- `Sudoku.__init__` with a supplied matrix: asserts the 9×9 shape (there is
no check on the range of the entries) and records the non-zero positions as
`given_numbers_indices`.  `none` models the failing assertion. -/
def mkSudoku (v : Variant) (b : Board) : Option State :=
  if shapeOK b then some { board := b, given := givenIndices b, variant := v } else none

/-- A position with both coordinates in `[0, 8]`. -/
def InRange (p : Pos) : Prop := 0 ≤ p.1 ∧ p.1 < 9 ∧ 0 ≤ p.2 ∧ p.2 < 9

instance : DecidablePred InRange := fun p => by unfold InRange; infer_instance

/-- Row-major rank of a position. -/
def rank (p : Pos) : Int := 9 * p.1 + p.2

/-! ### The brute-force solver (`SudokuSolverBruteforce`) -/

/-- One navigation step of `SudokuSolverBruteforce._next_row_column` before the
given-cell recursion: direction `1` is `(row + (column+1)//9, (column+1) % 9)`,
direction `-1` is `(row-1, 8)` when `column == 0` and `(row, column-1)`
otherwise.  (For a direction other than `±1` the source leaves the new
position unbound and raises; we totalise that case as the identity.) -/
def navStep (row col direction : Int) : Pos :=
  if direction = 1 then (row + (col + 1).fdiv 9, (col + 1) % 9)
  else if direction = -1 then (if col = 0 then (row - 1, (8 : Int)) else (row, col - 1))
  else (row, col)

/-- `SudokuSolverBruteforce._next_row_column` with explicit recursion fuel:
step once, and recurse in the same direction while the reached position is a
given cell. -/
def nextRowColumnFuel (given : List Pos) : Nat → Int → Int → Int → Pos
  | 0, row, col, _ => (row, col)
  | fuel + 1, row, col, direction =>
    if navStep row col direction ∈ given then
      nextRowColumnFuel given fuel (navStep row col direction).1
        (navStep row col direction).2 direction
    else navStep row col direction

/-- `SudokuSolverBruteforce._next_row_column`.  The source recursion always
terminates: the row-major rank of the position moves strictly monotonically
and the given positions lie in the 9×9 range, so at most 82 recursive calls
happen; the fuel 100 over-approximates that bound. -/
def nextRowColumn (given : List Pos) (row col direction : Int) : Pos :=
  nextRowColumnFuel given 100 row col direction

/-- The iterative solver loop of `SudokuSolverBruteforce._solve_iterative`:
while the grid is unsolved, try `write(number, row, column)`; on success
advance the cursor and reset the trial to 1; on failure with `number < 9`
try `number + 1`; otherwise clear the cell, retreat the cursor and resume
from the value held by the predecessor cell plus one. -/
def solveLoop (fuel : Nat) (s : State) (row col number : Int) : Option State :=
  if isSolved s then some s
  else
    match fuel with
    | 0 => none
    | fuel + 1 =>
      let wr := write s number row col
      if wr.1 then
        let p := nextRowColumn wr.2.given row col 1
        solveLoop fuel wr.2 p.1 p.2 1
      else if number < 9 then
        solveLoop fuel s row col (number + 1)
      else
        let s0 := (write s 0 row col).2
        let p := nextRowColumn s0.given row col (-1)
        solveLoop fuel s0 p.1 p.2 (getCell s0.board p.1 p.2 + 1)

/-- `SudokuSolverBruteforce._get_start_row_column`: walk forward from `(0,0)`
while the current cell is non-zero. -/
def getStartRowColumn (fuel : Nat) (s : State) (row col : Int) : Option Pos :=
  if getCell s.board row col ≠ 0 then
    match fuel with
    | 0 => none
    | fuel + 1 =>
      let p := nextRowColumn s.given row col 1
      getStartRowColumn fuel s p.1 p.2
  else some (row, col)

/-- `SudokuSolverBruteforce.solve` (iterative strategy): if the grid is not
already solved, find the start cursor and run the loop with trial value 1. -/
def solve (fuel : Nat) (s : State) : Option State :=
  if isSolved s then some s
  else
    match getStartRowColumn fuel s 0 0 with
    | none => none
    | some p => solveLoop fuel s p.1 p.2 1

/-! ### The generator (`SudokuMaker`) -/

/-- The randomness consumed by `SudokuMaker`: the result of
`random.shuffle(list(range(1, 10)))`, and the successive
`(random.randint(0, 8), random.randint(0, 8))` row/column draws. -/
structure Rand where
  perm : List Int
  draws : Nat → Nat × Nat

/-- The `i`-th row/column draw, reduced into the 9×9 range the way
`random.randint(0, 8)` bounds its results. -/
def drawPos (rnd : Rand) (i : Nat) : Pos :=
  ((((rnd.draws i).1 % 9 : Nat) : Int), (((rnd.draws i).2 % 9 : Nat) : Int))

/-- The all-empty board `np.zeros((9, 9))`. -/
def emptyBoard : Board := List.replicate 9 (List.replicate 9 (0 : Int))

/-- The placement loop of `SudokuMaker._create_board`: while values remain,
draw a position; if the cell is empty place the head value there, otherwise
retry with the same values.  `i` is the index of the next random draw. -/
def placeSeeds (rnd : Rand) (fuel i : Nat) (b : Board) (nums : List Int) : Option (Board × Nat) :=
  match nums with
  | [] => some (b, i)
  | v :: rest =>
    match fuel with
    | 0 => none
    | fuel + 1 =>
      let p := drawPos rnd i
      if getCell b p.1 p.2 = 0 then placeSeeds rnd fuel (i + 1) (setCell b p.1 p.2 v) rest
      else placeSeeds rnd fuel (i + 1) b (v :: rest)

/-- `SudokuMaker._create_board`: shuffle `1..9`, drop the last value, and
place the remaining 8 distinct values on an empty board at random empty
cells.  Returns the board and the index of the next unused random draw. -/
def createBoard (rnd : Rand) (fuel : Nat) : Option (Board × Nat) :=
  placeSeeds rnd fuel 0 emptyBoard rnd.perm.dropLast

/-- The removal loop of `SudokuMaker._remove_numbers`: while `n` removals
remain, draw a position; if the cell is non-zero attempt `write(0, row,
column)` and decrement the counter on success. -/
def removeNumbersLoop (rnd : Rand) (fuel i : Nat) (s : State) (n : Nat) : Option State :=
  if n = 0 then some s
  else
    match fuel with
    | 0 => none
    | fuel + 1 =>
      let p := drawPos rnd i
      if getCell s.board p.1 p.2 ≠ 0 then
        let wr := write s 0 p.1 p.2
        removeNumbersLoop rnd fuel (i + 1) wr.2 (if wr.1 then n - 1 else n)
      else removeNumbersLoop rnd fuel (i + 1) s n

/-- `SudokuMaker._remove_numbers`: run the removal loop with the counter
`numbers_to_remove = 81 - hints`, drawing from index `i` on. -/
def removeNumbers (rnd : Rand) (fuel i : Nat) (s : State) (hints : Nat) : Option State :=
  removeNumbersLoop rnd fuel i s (81 - hints)

/-- The tail of `SudokuMaker.create_random_sudoku` shared by both variants:
construct the grid of the chosen class over the seeded board, solve it,
remove numbers down to `hints` (drawing from index `bi.2` on), and
re-construct a grid of the same class from the resulting board so that the
remaining values become given. -/
def makerPipeline (rnd : Rand) (fuel hints : Nat) (v : Variant) (bi : Board × Nat) :
    Option (Except String State) :=
  match mkSudoku v bi.1 with
  | none => none
  | some sud =>
    match solve fuel sud with
    | none => none
    | some solved =>
      match removeNumbers rnd fuel bi.2 solved hints with
      | none => none
      | some removed =>
        match mkSudoku v removed.board with
        | none => none
        | some final => some (Except.ok final)

/-- `SudokuMaker.create_random_sudoku`: build the seeded board, dispatch on
the variant token (any token other than `"standard"` and `"diagonal"` raises
`ValueError`, modelled as `Except.error`), then solve, remove and
re-construct. -/
def createRandomSudoku (rnd : Rand) (fuel : Nat) (hints : Nat) (sudokuType : String) :
    Option (Except String State) :=
  match createBoard rnd fuel with
  | none => none
  | some bi =>
    if sudokuType = "standard" then makerPipeline rnd fuel hints Variant.standard bi
    else if sudokuType = "diagonal" then makerPipeline rnd fuel hints Variant.diagonal bi
    else some (Except.error (sudokuType ++ " is not a supported sudoku type."))

/-- A sequence of `write` operations `(number, row, column)` applied in
order; this is the shape of every mutation the solver and the generator
perform on a grid. -/
def applyWrites (ops : List (Int × Int × Int)) (s : State) : State :=
  ops.foldl (fun t op => (write t op.1 op.2.1 op.2.2).2) s

/-! ### Spec-side predicates

These three definitions follow the specification's wording for the legality
check — "value does not already occur **elsewhere** in the cell's row,
column, box" — to be compared with the count-on-a-copy computation the
source performs. -/

/-- The value `v` occurs in row `r` at a column other than `c`. -/
def rowHasElsewhereSpec (b : Board) (v : Int) (r c : Int) : Bool :=
  (List.range 9).any (fun (j : Nat) => ((j : Int) != c) && (getCell b r (j : Int) == v))

/-- The value `v` occurs in column `c` at a row other than `r`. -/
def colHasElsewhereSpec (b : Board) (v : Int) (r c : Int) : Bool :=
  (List.range 9).any (fun (i : Nat) => ((i : Int) != r) && (getCell b (i : Int) c == v))

/-- The value `v` occurs in the 3×3 box of `(r, c)` at a cell other than
`(r, c)` itself (cells of the box are its row-major flattening). -/
def boxHasElsewhereSpec (b : Board) (v : Int) (r c : Int) : Bool :=
  (List.range 9).any (fun j => (j != regionIdx r c) && (((regionCells b r c)[j]?).getD 0 == v))

/-! ### Basic lemmas about the board operations -/

theorem idx9_lt (i : Int) : idx9 i < 9 := by
  have h1 : 0 ≤ i.emod 9 := Int.emod_nonneg i (by decide)
  have h2 : i.emod 9 < 9 := Int.emod_lt_of_pos i (by decide)
  unfold idx9
  omega

theorem idx9_coe (j : Nat) (h : j < 9) : idx9 (j : Int) = j := by
  unfold idx9
  rw [Int.emod_eq_of_lt (by positivity) (by exact_mod_cast h)]
  simp

theorem idx9_toNat (i : Int) (h0 : 0 ≤ i) (h9 : i < 9) : idx9 i = i.toNat := by
  unfold idx9
  rw [Int.emod_eq_of_lt h0 h9]

theorem shapeOK_iff (b : Board) :
    shapeOK b = true ↔ b.length = 9 ∧ ∀ row ∈ b, row.length = 9 := by
  simp [shapeOK, List.all_eq_true]

theorem rowList_congr (b : Board) {r r' : Int} (h : idx9 r = idx9 r') :
    rowList b r = rowList b r' := by
  simp [rowList, h]

theorem length_rowList (b : Board) (r : Int) (hb : shapeOK b = true) :
    (rowList b r).length = 9 := by
  obtain ⟨hl, hrows⟩ := (shapeOK_iff b).mp hb
  have hlt : idx9 r < b.length := by rw [hl]; exact idx9_lt r
  rw [rowList, List.getElem?_eq_getElem hlt]
  exact hrows _ (List.getElem_mem hlt)

theorem getCell_eq_getElem (b : Board) (r c : Int) (hb : shapeOK b = true)
    (hlt : idx9 c < (rowList b r).length) :
    getCell b r c = (rowList b r)[idx9 c] := by
  rw [getCell, List.getElem?_eq_getElem hlt]
  rfl

theorem rowList_setCell_self (b : Board) (r c v : Int) :
    rowList (setCell b r c v) r = (rowList b r).set (idx9 c) v := by
  by_cases h : idx9 r < b.length
  · rw [rowList, setCell, List.getElem?_set_self (by simpa using h)]
    rfl
  · push_neg at h
    rw [setCell, List.set_eq_of_length_le h]
    have : b[idx9 r]? = none := by
      rw [List.getElem?_eq_none_iff]
      exact h
    simp [rowList, this]

theorem rowList_setCell_ne (b : Board) (r r' c v : Int) (h : idx9 r' ≠ idx9 r) :
    rowList (setCell b r c v) r' = rowList b r' := by
  rw [rowList, setCell, List.getElem?_set_ne (fun he => h he.symm)]
  rfl

theorem getCell_setCell_self (b : Board) (r c v : Int) (hb : shapeOK b = true) :
    getCell (setCell b r c v) r c = v := by
  have hlen : (rowList b r).length = 9 := length_rowList b r hb
  rw [getCell, rowList_setCell_self, List.getElem?_set_self (by rw [hlen]; exact idx9_lt c)]
  rfl

theorem getCell_setCell_ne (b : Board) (r c r' c' v : Int)
    (h : idx9 r' ≠ idx9 r ∨ idx9 c' ≠ idx9 c) :
    getCell (setCell b r c v) r' c' = getCell b r' c' := by
  rcases h with h | h
  · rw [getCell, rowList_setCell_ne b r r' c v h, getCell]
  · by_cases hr : idx9 r' = idx9 r
    · rw [getCell, rowList_congr (setCell b r c v) hr, rowList_setCell_self,
        List.getElem?_set_ne (fun he => h he.symm), getCell, rowList_congr b hr]
    · rw [getCell, rowList_setCell_ne b r r' c v hr, getCell]

theorem shapeOK_setCell (b : Board) (r c v : Int) (hb : shapeOK b = true) :
    shapeOK (setCell b r c v) = true := by
  obtain ⟨hl, hrows⟩ := (shapeOK_iff b).mp hb
  rw [shapeOK_iff]
  constructor
  · rw [setCell, List.length_set, hl]
  · intro row hrow
    rcases List.mem_or_eq_of_mem_set hrow with h | h
    · exact hrows row h
    · subst h
      rw [List.length_set]
      exact length_rowList b r hb

theorem set_getElem_self {α : Type} (l : List α) (i : Nat) (h : i < l.length) :
    l.set i l[i] = l := by
  induction l generalizing i with
  | nil => rfl
  | cons a t ih =>
    cases i with
    | zero => rfl
    | succ k => simpa [List.set] using ih k (by simpa using h)

theorem setCell_self (b : Board) (r c v : Int) (hb : shapeOK b = true)
    (hv : getCell b r c = v) : setCell b r c v = b := by
  have hlr : idx9 r < b.length := by rw [((shapeOK_iff b).mp hb).1]; exact idx9_lt r
  have hlc : idx9 c < (rowList b r).length := by rw [length_rowList b r hb]; exact idx9_lt c
  have hrow : rowList b r = b[idx9 r] := by
    rw [rowList, List.getElem?_eq_getElem hlr]
    rfl
  have hv' : (rowList b r)[idx9 c] = v := by
    rw [getCell_eq_getElem b r c hb hlc] at hv
    exact hv
  rw [setCell, ← hv', set_getElem_self (rowList b r) (idx9 c) hlc, hrow,
    set_getElem_self b (idx9 r) hlr]

theorem length_regionCells (b : Board) (r c : Int) : (regionCells b r c).length = 9 := rfl

theorem regionIdx_lt (r c : Int) : regionIdx r c < 9 := by
  have h1 : 0 ≤ r.emod 3 := Int.emod_nonneg r (by decide)
  have h2 : r.emod 3 < 3 := Int.emod_lt_of_pos r (by decide)
  have h3 : 0 ≤ c.emod 3 := Int.emod_nonneg c (by decide)
  have h4 : c.emod 3 < 3 := Int.emod_lt_of_pos c (by decide)
  unfold regionIdx
  omega

theorem countEq_cons (v a : Int) (t : List Int) :
    countEq v (a :: t) = countEq v t + if a = v then 1 else 0 := by
  simp [countEq, List.countP_cons]

theorem countEq_pos_iff (v : Int) (l : List Int) : 0 < countEq v l ↔ v ∈ l := by
  rw [countEq, List.countP_pos_iff]
  simp

/-- `countEq` of the list with position `i` overwritten by `v`: at least two
occurrences remain iff `v` already occurred at some other position. -/
theorem one_lt_countEq_set_iff (l : List Int) (i : Nat) (v : Int) (h : i < l.length) :
    1 < countEq v (l.set i v) ↔ ∃ j, ∃ hj : j < l.length, j ≠ i ∧ l[j] = v := by
  induction l generalizing i with
  | nil => simp at h
  | cons a t ih =>
    cases i with
    | zero =>
      have hset : (a :: t).set 0 v = v :: t := rfl
      rw [hset, countEq_cons, if_pos rfl]
      constructor
      · intro hlt
        have hpos : 0 < countEq v t := by omega
        obtain ⟨j, hj, hjv⟩ := List.mem_iff_getElem.mp ((countEq_pos_iff v t).mp hpos)
        exact ⟨j + 1, by simp only [List.length_cons]; omega, by omega, by simpa using hjv⟩
      · rintro ⟨j, hj, hne, hjv⟩
        cases j with
        | zero => omega
        | succ k =>
          have hk : k < t.length := by simpa using hj
          have hkv : t[k] = v := by simpa using hjv
          have hmem : v ∈ t := hkv ▸ List.getElem_mem hk
          have : 0 < countEq v t := (countEq_pos_iff v t).mpr hmem
          omega
    | succ k =>
      have hk : k < t.length := by simpa using h
      have hset : (a :: t).set (k + 1) v = a :: t.set k v := rfl
      rw [hset, countEq_cons]
      by_cases ha : a = v
      · rw [if_pos ha]
        have hklen : k < (t.set k v).length := by
          rw [List.length_set]
          exact hk
        have hkv : (t.set k v)[k] = v := by
          rw [List.getElem_set]
          simp
        have hmem : v ∈ t.set k v :=
          List.mem_iff_getElem.mpr ⟨k, by rw [List.length_set]; exact hk, hkv⟩
        have hpos : 0 < countEq v (t.set k v) := (countEq_pos_iff v _).mpr hmem
        constructor
        · intro _
          exact ⟨0, by simp, by omega, by simpa using ha⟩
        · intro _
          omega
      · rw [if_neg ha, Nat.add_zero, ih k hk]
        constructor
        · rintro ⟨j, hj, hne, hjv⟩
          exact ⟨j + 1, by simp only [List.length_cons]; omega, by omega, by simpa using hjv⟩
        · rintro ⟨j, hj, hne, hjv⟩
          cases j with
          | zero => exact absurd (by simpa using hjv) ha
          | succ m => exact ⟨m, by simpa using hj, by omega, by simpa using hjv⟩

theorem getCell_eq_getElem_rowList (b : Board) (r : Int) (j : Nat) (hj : j < 9)
    (hb : shapeOK b = true) (hlt : j < (rowList b r).length) :
    getCell b r (j : Int) = (rowList b r)[j] := by
  rw [getCell, idx9_coe j hj, List.getElem?_eq_getElem hlt]
  rfl

theorem length_colList (b : Board) (c : Int) : (colList b c).length = b.length := by
  simp [colList]

theorem colList_setCell_self (b : Board) (r c v : Int) (hb : shapeOK b = true) :
    colList (setCell b r c v) c = (colList b c).set (idx9 r) v := by
  have h1 : setCell b r c v = b.set (idx9 r) ((rowList b r).set (idx9 c) v) := rfl
  have h2 : ∀ bb : Board, colList bb c = bb.map (fun row => (row[idx9 c]?).getD 0) :=
    fun _ => rfl
  rw [h1, h2, h2, List.map_set]
  congr 1
  rw [List.getElem?_set_self (by rw [length_rowList b r hb]; exact idx9_lt c)]
  rfl

theorem getElem_colList (b : Board) (c : Int) (i : Nat) (hi : i < 9) (hb : shapeOK b = true)
    (hlt : i < (colList b c).length) :
    (colList b c)[i] = getCell b (i : Int) c := by
  have hlen : b.length = 9 := ((shapeOK_iff b).mp hb).1
  have hib : i < b.length := by omega
  have h9 : i < (colList b c).length := by rw [length_colList]; exact hib
  have hrow : rowList b (i : Int) = b[i] := by
    rw [rowList, idx9_coe i hi, List.getElem?_eq_getElem hib]
    rfl
  have hq : (colList b c)[i]? = some (getCell b (i : Int) c) := by
    have hm : (colList b c)[i]? = Option.map (fun row => (row[idx9 c]?).getD 0) b[i]? := by
      have : colList b c = b.map (fun row => (row[idx9 c]?).getD 0) := rfl
      rw [this, List.getElem?_map]
    rw [hm, List.getElem?_eq_getElem hib]
    have : getCell b (i : Int) c = ((b[i])[idx9 c]?).getD 0 := by
      rw [getCell, hrow]
    rw [this]
    rfl
  have h' := List.getElem?_eq_getElem h9
  rw [hq] at h'
  exact (Option.some.inj h').symm

theorem rowSpec_iff (b : Board) (v r c : Int) (hc0 : 0 ≤ c) (hc9 : c < 9)
    (hb : shapeOK b = true) :
    rowHasElsewhereSpec b v r c = true ↔
      ∃ j, ∃ hj : j < (rowList b r).length, j ≠ idx9 c ∧ (rowList b r)[j] = v := by
  have hlen : (rowList b r).length = 9 := length_rowList b r hb
  simp only [rowHasElsewhereSpec, List.any_eq_true, List.mem_range, Bool.and_eq_true,
    bne_iff_ne, beq_iff_eq]
  constructor
  · rintro ⟨j, hj, hne, hv⟩
    refine ⟨j, by omega, ?_,
      by rw [← getCell_eq_getElem_rowList b r j hj hb (by omega)]; exact hv⟩
    rw [idx9_toNat c hc0 hc9]
    omega
  · rintro ⟨j, hj, hne, hv⟩
    rw [idx9_toNat c hc0 hc9] at hne
    have hj9 : j < 9 := by omega
    refine ⟨j, hj9, by omega, ?_⟩
    rw [getCell_eq_getElem_rowList b r j hj9 hb (by omega)]
    exact hv

theorem colSpec_iff (b : Board) (v r c : Int) (hr0 : 0 ≤ r) (hr9 : r < 9)
    (hb : shapeOK b = true) :
    colHasElsewhereSpec b v r c = true ↔
      ∃ i, ∃ hi : i < (colList b c).length, i ≠ idx9 r ∧ (colList b c)[i] = v := by
  have hlen : (colList b c).length = 9 := by
    rw [length_colList, ((shapeOK_iff b).mp hb).1]
  simp only [colHasElsewhereSpec, List.any_eq_true, List.mem_range, Bool.and_eq_true,
    bne_iff_ne, beq_iff_eq]
  constructor
  · rintro ⟨i, hi, hne, hv⟩
    refine ⟨i, by omega, ?_, by rw [getElem_colList b c i hi hb (by omega)]; exact hv⟩
    rw [idx9_toNat r hr0 hr9]
    omega
  · rintro ⟨i, hi, hne, hv⟩
    rw [idx9_toNat r hr0 hr9] at hne
    have hi9 : i < 9 := by omega
    refine ⟨i, hi9, by omega, ?_⟩
    rw [← getElem_colList b c i hi9 hb (by omega)]
    exact hv

theorem boxSpec_iff (b : Board) (v r c : Int) :
    boxHasElsewhereSpec b v r c = true ↔
      ∃ j, ∃ hj : j < (regionCells b r c).length, j ≠ regionIdx r c ∧
        (regionCells b r c)[j] = v := by
  have hlen : (regionCells b r c).length = 9 := length_regionCells b r c
  simp only [boxHasElsewhereSpec, List.any_eq_true, List.mem_range, Bool.and_eq_true,
    bne_iff_ne, beq_iff_eq]
  constructor
  · rintro ⟨j, hj, hne, hv⟩
    refine ⟨j, by omega, hne, ?_⟩
    rw [List.getElem?_eq_getElem (by omega : j < (regionCells b r c).length)] at hv
    exact hv
  · rintro ⟨j, hj, hne, hv⟩
    refine ⟨j, by omega, hne, ?_⟩
    rw [List.getElem?_eq_getElem (by omega : j < (regionCells b r c).length)]
    exact hv

/-! ### Write and state lemmas -/

theorem write_given (s : State) (number row col : Int) :
    (write s number row col).2.given = s.given := by
  rw [write]
  split <;> rfl

theorem write_variant (s : State) (number row col : Int) :
    (write s number row col).2.variant = s.variant := by
  rw [write]
  split <;> rfl

theorem isMoveLegal_of_mem_given (s : State) (number row col : Int)
    (h : (row, col) ∈ s.given) : isMoveLegal s number row col = false := by
  rw [isMoveLegal]
  cases s.variant
  · rw [isMoveLegalStd, if_pos h]
  · rw [isMoveLegalDiag, if_pos h]

theorem write_at_given (s : State) (number row col : Int)
    (h : (row, col) ∈ s.given) : write s number row col = (false, s) := by
  rw [write, isMoveLegal_of_mem_given s number row col h]
  simp

theorem mem_givenIndices (b : Board) (p : Pos) :
    p ∈ givenIndices b ↔ InRange p ∧ getCell b p.1 p.2 ≠ 0 := by
  unfold givenIndices
  rw [List.mem_flatten]
  constructor
  · rintro ⟨l, hl, hpl⟩
    rw [List.mem_map] at hl
    obtain ⟨i, hi, rfl⟩ := hl
    rw [List.mem_range] at hi
    rw [List.mem_filterMap] at hpl
    obtain ⟨j, hj, hjp⟩ := hpl
    rw [List.mem_range] at hj
    by_cases hz : getCell b (i : Int) (j : Int) ≠ 0
    · rw [if_pos hz] at hjp
      obtain rfl : ((i : Int), (j : Int)) = p := by simpa using hjp
      refine ⟨⟨?_, ?_, ?_, ?_⟩, hz⟩
      · exact (show (0 : Int) ≤ (i : Int) from Int.natCast_nonneg i)
      · exact (show (i : Int) < 9 by exact_mod_cast hi)
      · exact (show (0 : Int) ≤ (j : Int) from Int.natCast_nonneg j)
      · exact (show (j : Int) < 9 by exact_mod_cast hj)
    · rw [if_neg hz] at hjp
      simp at hjp
  · rintro ⟨⟨h1, h2, h3, h4⟩, hz⟩
    have hp1 : ((p.1.toNat : Nat) : Int) = p.1 := Int.toNat_of_nonneg h1
    have hp2 : ((p.2.toNat : Nat) : Int) = p.2 := Int.toNat_of_nonneg h3
    have hz' : getCell b ((p.1.toNat : Nat) : Int) ((p.2.toNat : Nat) : Int) ≠ 0 := by
      rw [hp1, hp2]
      exact hz
    refine ⟨_, List.mem_map.mpr ⟨p.1.toNat, List.mem_range.mpr (by omega), rfl⟩, ?_⟩
    rw [List.mem_filterMap]
    refine ⟨p.2.toNat, List.mem_range.mpr (by omega), ?_⟩
    rw [if_pos hz', hp1, hp2]

theorem ite3_true_iff (A B C : Prop) [Decidable A] [Decidable B] [Decidable C] :
    ((if A then false else if B then false else if C then false else (true : Bool)) = true) ↔
      ¬A ∧ ¬B ∧ ¬C := by
  split_ifs with h1 h2 h3
  · simp [h1]
  · simp [h1, h2]
  · simp [h1, h2, h3]
  · simp [h1, h2, h3]

/-! ### Concrete boards and states used by counterexamples and witnesses -/

/-- A well-shaped 9×9 matrix whose entry at `(0, 0)` is `10`, outside `0..9`. -/
def boardOutOfRange : Board :=
  [10, 0, 0, 0, 0, 0, 0, 0, 0] :: List.replicate 8 (List.replicate 9 (0 : Int))

/-- A well-shaped 9×9 matrix with a single non-zero entry `5` at `(0, 0)`. -/
def mWitness : Board :=
  [5, 0, 0, 0, 0, 0, 0, 0, 0] :: List.replicate 8 (List.replicate 9 (0 : Int))

/-- The state `Sudoku(mWitness)` constructs. -/
def stWitness : State :=
  { board := mWitness, given := givenIndices mWitness, variant := Variant.standard }

/-- The state `Sudoku()` constructs from no matrix: all cells empty, no givens. -/
def emptySudoku : State :=
  { board := emptyBoard, given := givenIndices emptyBoard, variant := Variant.standard }

/-! ### Claim C2 -/

/-- C2 (amended): construction fails exactly when the matrix is not 9×9
(the entries' range is NOT validated), and on success records the board, the
variant, and `given` as exactly the non-zero in-range positions. -/
theorem claim_C2 (v : Variant) (m : Board) :
    (mkSudoku v m = none ↔ ¬(m.length = 9 ∧ ∀ row ∈ m, row.length = 9)) ∧
    (∀ s, mkSudoku v m = some s →
      s.board = m ∧ s.variant = v ∧ s.given = givenIndices m ∧
      ∀ p : Pos, p ∈ s.given ↔ InRange p ∧ getCell m p.1 p.2 ≠ 0) := by
  constructor
  · rw [← shapeOK_iff]
    unfold mkSudoku
    by_cases h : shapeOK m = true <;> simp [h]
  · intro s hs
    unfold mkSudoku at hs
    by_cases h : shapeOK m = true
    · rw [if_pos h] at hs
      obtain rfl := (Option.some.inj hs).symm
      exact ⟨rfl, rfl, rfl, fun p => mem_givenIndices m p⟩
    · rw [if_neg h] at hs
      exact absurd hs (by simp)

/-- C2 (counterexample): the claim asserts construction fails with
`InvalidBoardShape` when an entry lies outside `0..9`; the source only
asserts the shape, so the 9×9 board with entry `10` constructs fine. -/
theorem claim_C2_counterexample :
    shapeOK boardOutOfRange = true ∧ getCell boardOutOfRange 0 0 = 10 ∧
    ¬(0 ≤ getCell boardOutOfRange 0 0 ∧ getCell boardOutOfRange 0 0 ≤ 9) ∧
    (mkSudoku Variant.standard boardOutOfRange).isSome = true := by decide

/-- Witness for C2 at the concrete matrix `mWitness`. -/
theorem claim_C2_witness :
    stWitness.board = mWitness ∧ stWitness.variant = Variant.standard ∧
    stWitness.given = givenIndices mWitness ∧
    (((0 : Int), (0 : Int)) ∈ stWitness.given ↔
      InRange ((0 : Int), (0 : Int)) ∧ getCell mWitness 0 0 ≠ 0) := by
  have h := (claim_C2 Variant.standard mWitness).2 stWitness
    (by rw [mkSudoku, if_pos (by decide)]; rfl)
  exact ⟨h.1, h.2.1, h.2.2.1, h.2.2.2 (0, 0)⟩

/-! ### Claim C3 -/

/-- C3 (counterexample): the claim asserts every value outside `0..9` is
illegal, but the source only rejects `number > 9`: the negative value `-1`
is accepted at the empty non-given cell `(0, 0)` of the empty grid. -/
theorem claim_C3_counterexample :
    isMoveLegal emptySudoku (-1) 0 0 = true ∧ ((-1 : Int) < 0 ∨ 9 < (-1 : Int)) := by decide

/-- C3 (amended): for a standard grid and an in-range position,
`is_legal(value, row, col)` is true iff `(row, col)` is not given and either
`value = 0`, or `value ≤ 9` (negative values are NOT rejected) and `value`
does not already occur elsewhere in the cell's row, column and box. -/
theorem claim_C3 (s : State) (v r c : Int)
    (hvar : s.variant = Variant.standard) (hb : shapeOK s.board = true)
    (hr0 : 0 ≤ r) (hr9 : r < 9) (hc0 : 0 ≤ c) (hc9 : c < 9) :
    isMoveLegal s v r c = true ↔
      ((r, c) ∉ s.given ∧
        (v = 0 ∨ (v ≤ 9 ∧ rowHasElsewhereSpec s.board v r c = false ∧
          colHasElsewhereSpec s.board v r c = false ∧
          boxHasElsewhereSpec s.board v r c = false))) := by
  have hlegal : isMoveLegal s v r c = isMoveLegalStd s v r c := by
    unfold isMoveLegal
    rw [hvar]
  rw [hlegal]
  by_cases hg : (r, c) ∈ s.given
  · rw [isMoveLegalStd, if_pos hg]
    simp [hg]
  · by_cases hv0 : v = 0
    · subst hv0
      rw [isMoveLegalStd, if_neg hg, if_pos rfl]
      simp [hg]
    · by_cases hv9 : 9 < v
      · rw [isMoveLegalStd, if_neg hg, if_neg hv0, if_pos hv9]
        constructor
        · intro hcontra
          exact absurd hcontra (by simp)
        · rintro ⟨-, h⟩
          rcases h with h | ⟨h9, -⟩
          · exact absurd h hv0
          · omega
      · have hlen : (rowList s.board r).length = 9 := length_rowList _ _ hb
        have hlenc : (colList s.board c).length = 9 := by
          rw [length_colList, ((shapeOK_iff _).mp hb).1]
        have hA := one_lt_countEq_set_iff (rowList s.board r) (idx9 c) v
          (by rw [hlen]; exact idx9_lt c)
        have hB := one_lt_countEq_set_iff (colList s.board c) (idx9 r) v
          (by rw [hlenc]; exact idx9_lt r)
        have hC := one_lt_countEq_set_iff (regionCells s.board r c) (regionIdx r c) v
          (by rw [length_regionCells]; exact regionIdx_lt r c)
        have hAiff : (1 < countEq v ((rowList s.board r).set (idx9 c) v)) ↔
            rowHasElsewhereSpec s.board v r c = true :=
          hA.trans (rowSpec_iff s.board v r c hc0 hc9 hb).symm
        have hBiff : (1 < countEq v ((colList s.board c).set (idx9 r) v)) ↔
            colHasElsewhereSpec s.board v r c = true :=
          hB.trans (colSpec_iff s.board v r c hr0 hr9 hb).symm
        have hCiff : (1 < countEq v ((regionCells s.board r c).set (regionIdx r c) v)) ↔
            boxHasElsewhereSpec s.board v r c = true :=
          hC.trans (boxSpec_iff s.board v r c).symm
        rw [isMoveLegalStd, if_neg hg, if_neg hv0, if_neg hv9,
          rowList_setCell_self s.board r c v, colList_setCell_self s.board r c v hb,
          ite3_true_iff]
        constructor
        · rintro ⟨n1, n2, n3⟩
          refine ⟨hg, Or.inr ⟨by omega, ?_, ?_, ?_⟩⟩
          · rcases Bool.eq_false_or_eq_true (rowHasElsewhereSpec s.board v r c) with h | h
            · exact absurd (hAiff.mpr h) n1
            · exact h
          · rcases Bool.eq_false_or_eq_true (colHasElsewhereSpec s.board v r c) with h | h
            · exact absurd (hBiff.mpr h) n2
            · exact h
          · rcases Bool.eq_false_or_eq_true (boxHasElsewhereSpec s.board v r c) with h | h
            · exact absurd (hCiff.mpr h) n3
            · exact h
        · rintro ⟨-, h⟩
          rcases h with h | ⟨-, hrow, hcol, hbox⟩
          · exact absurd h hv0
          · refine ⟨?_, ?_, ?_⟩
            · intro h1
              rw [hAiff.mp h1] at hrow
              cases hrow
            · intro h2
              rw [hBiff.mp h2] at hcol
              cases hcol
            · intro h3
              rw [hCiff.mp h3] at hbox
              cases hbox

/-- Witness for C3 at a concrete grid: placing `5` at `(0, 1)` next to the
given `5` at `(0, 0)` is rejected exactly because of the row conflict. -/
theorem claim_C3_witness :
    isMoveLegal stWitness 5 0 1 = true ↔
      (((0 : Int), (1 : Int)) ∉ stWitness.given ∧
        ((5 : Int) = 0 ∨ ((5 : Int) ≤ 9 ∧ rowHasElsewhereSpec stWitness.board 5 0 1 = false ∧
          colHasElsewhereSpec stWitness.board 5 0 1 = false ∧
          boxHasElsewhereSpec stWitness.board 5 0 1 = false))) :=
  claim_C3 stWitness 5 0 1 rfl (by decide) (by decide) (by decide) (by decide) (by decide)

/-! ### Claim C5 -/

/-- C5: `write` returns true and sets exactly the target cell (other cells,
the given set and the variant unchanged) iff the move is legal; otherwise it
returns false with the whole state unchanged.  No error case exists. -/
theorem claim_C5 (s : State) (v r c : Int) (hb : shapeOK s.board = true)
    (hr0 : 0 ≤ r) (hr9 : r < 9) (hc0 : 0 ≤ c) (hc9 : c < 9) :
    ((write s v r c).1 = isMoveLegal s v r c) ∧
    (isMoveLegal s v r c = true →
      getCell (write s v r c).2.board r c = v ∧
      (write s v r c).2.given = s.given ∧
      (write s v r c).2.variant = s.variant ∧
      ∀ r' c' : Int, 0 ≤ r' → r' < 9 → 0 ≤ c' → c' < 9 → (r', c') ≠ (r, c) →
        getCell (write s v r c).2.board r' c' = getCell s.board r' c') ∧
    (isMoveLegal s v r c = false → write s v r c = (false, s)) := by
  refine ⟨?_, ?_, ?_⟩
  · rw [write]
    split_ifs with h
    · exact h.symm
    · rcases Bool.eq_false_or_eq_true (isMoveLegal s v r c) with ht | hf
      · exact absurd ht h
      · exact hf.symm
  · intro hl
    rw [write, if_pos hl]
    refine ⟨getCell_setCell_self s.board r c v hb, rfl, rfl, ?_⟩
    intro r' c' h1 h2 h3 h4 hne
    have hor : r' ≠ r ∨ c' ≠ c := by
      by_contra hcon
      push_neg at hcon
      exact hne (by rw [hcon.1, hcon.2])
    apply getCell_setCell_ne
    rcases hor with h | h
    · left
      rw [idx9_toNat r' h1 h2, idx9_toNat r hr0 hr9]
      omega
    · right
      rw [idx9_toNat c' h3 h4, idx9_toNat c hc0 hc9]
      omega
  · intro hl
    rw [write, if_neg (by rw [hl]; simp)]

/-- Witness for C5 at the empty grid: writing `5` at `(0, 0)` succeeds, sets
that cell, and leaves the cell `(1, 1)` unchanged. -/
theorem claim_C5_witness :
    (write emptySudoku 5 0 0).1 = isMoveLegal emptySudoku 5 0 0 ∧
    getCell (write emptySudoku 5 0 0).2.board 0 0 = 5 ∧
    getCell (write emptySudoku 5 0 0).2.board 1 1 = getCell emptySudoku.board 1 1 := by
  have h := claim_C5 emptySudoku 5 0 0 (by decide) (by decide) (by decide) (by decide) (by decide)
  have h2 := h.2.1 (by decide)
  exact ⟨h.1, h2.1, h2.2.2.2 1 1 (by decide) (by decide) (by decide) (by decide) (by decide)⟩

/-! ### Claim C6 -/

theorem applyWrites_preserves (ops : List (Int × Int × Int)) :
    ∀ s : State, ∀ r c : Int, (r, c) ∈ s.given →
      (∀ op ∈ ops, InRange (op.2.1, op.2.2)) → InRange (r, c) →
      (r, c) ∈ (applyWrites ops s).given ∧
      getCell (applyWrites ops s).board r c = getCell s.board r c := by
  induction ops with
  | nil =>
    intro s r c hm _ _
    exact ⟨hm, rfl⟩
  | cons op rest ih =>
    intro s r c hm hops hrc
    have hop := hops op (List.mem_cons_self _ _)
    have hstep : applyWrites (op :: rest) s = applyWrites rest (write s op.1 op.2.1 op.2.2).2 :=
      rfl
    have hgiven : (write s op.1 op.2.1 op.2.2).2.given = s.given := write_given s _ _ _
    have hcell : getCell (write s op.1 op.2.1 op.2.2).2.board r c = getCell s.board r c := by
      by_cases hl : isMoveLegal s op.1 op.2.1 op.2.2 = true
      · have ht2 : (write s op.1 op.2.1 op.2.2).2.board = setCell s.board op.2.1 op.2.2 op.1 := by
          rw [write, if_pos hl]
        rw [ht2]
        have hnotg : (op.2.1, op.2.2) ∉ s.given := by
          intro hmem2
          rw [isMoveLegal_of_mem_given s _ _ _ hmem2] at hl
          cases hl
        have hne : (r, c) ≠ (op.2.1, op.2.2) := by
          intro he
          rw [he] at hm
          exact hnotg hm
        obtain ⟨a1, a2, a3, a4⟩ := hrc
        obtain ⟨b1, b2, b3, b4⟩ := hop
        have hor : r ≠ op.2.1 ∨ c ≠ op.2.2 := by
          by_contra hcon
          push_neg at hcon
          exact hne (by rw [hcon.1, hcon.2])
        apply getCell_setCell_ne
        rcases hor with h | h
        · left
          rw [idx9_toNat r a1 a2, idx9_toNat _ b1 b2]
          omega
        · right
          rw [idx9_toNat c a3 a4, idx9_toNat _ b3 b4]
          omega
      · rw [write, if_neg hl]
    rw [hstep]
    have hrec := ih (write s op.1 op.2.1 op.2.2).2 r c (by rw [hgiven]; exact hm)
      (fun o ho => hops o (List.mem_cons_of_mem _ ho)) hrc
    exact ⟨hrec.1, by rw [hrec.2, hcell]⟩

/-- C6 (counterexample): the claim concludes that the values at given
positions are invariant under every sequence of writes; a single write at
the `numpy`-wrapped alias `(-9, 0)` of the given cell `(0, 0)` passes the
given check (the tuple `(-9, 0)` is not in `given_numbers_indices`) and
overwrites the given value `5` with `3`. -/
theorem claim_C6_counterexample :
    ((0 : Int), (0 : Int)) ∈ stWitness.given ∧
    getCell stWitness.board 0 0 = 5 ∧
    (write stWitness 3 (-9) 0).1 = true ∧
    getCell (write stWitness 3 (-9) 0).2.board 0 0 = 3 := by decide

/-- C6 (amended): writing at a given position itself returns false and
leaves the state unchanged, and the value at a given position is invariant
under every sequence of `write` operations addressed at in-range positions
(the solver and the removal loop mutate the grid only through such writes;
out-of-range aliases are excluded by the counterexample). -/
theorem claim_C6 (s : State) (r c : Int) (hmem : (r, c) ∈ s.given) (hrc : InRange (r, c)) :
    (∀ v, write s v r c = (false, s)) ∧
    (∀ ops : List (Int × Int × Int), (∀ op ∈ ops, InRange (op.2.1, op.2.2)) →
      (r, c) ∈ (applyWrites ops s).given ∧
      getCell (applyWrites ops s).board r c = getCell s.board r c) := by
  constructor
  · intro v
    exact write_at_given s v r c hmem
  · intro ops hops
    exact applyWrites_preserves ops s r c hmem hops hrc

/-- Witness for C6: overwriting the given cell `(0, 0)` fails, and a
legal write elsewhere leaves its value intact. -/
theorem claim_C6_witness :
    write stWitness 7 0 0 = (false, stWitness) ∧
    getCell (applyWrites [(7, 1, 1)] stWitness).board 0 0 = getCell stWitness.board 0 0 := by
  have h := claim_C6 stWitness 0 0 (by decide) (by decide)
  exact ⟨h.1 7, (h.2 [(7, 1, 1)] (by decide)).2⟩

/-! ### Claim C10 -/

/-- The at-most-once-per-region invariant of a standard grid: in every row,
every column and every 3×3 box, the non-zero entries are pairwise distinct. -/
def invariantStd (b : Board) : Bool :=
  ((List.range 9).all (fun (i : Nat) =>
    decide ((rowList b (i : Int)).filter (fun x => x != 0)).Nodup &&
    decide ((colList b (i : Int)).filter (fun x => x != 0)).Nodup)) &&
  ((List.range 9).all (fun (i : Nat) => (List.range 9).all (fun (j : Nat) =>
    decide ((regionCells b (i : Int) (j : Int)).filter (fun x => x != 0)).Nodup)))

theorem invariantStd_row (b : Board) (hinv : invariantStd b = true) (r : Int)
    (hr0 : 0 ≤ r) (hr9 : r < 9) :
    ((rowList b r).filter (fun x => x != 0)).Nodup := by
  have h := ((by simpa [invariantStd, List.all_eq_true] using hinv :
    (∀ i ∈ List.range 9, ((rowList b (i : Int)).filter (fun x => x != 0)).Nodup ∧
      ((colList b (i : Int)).filter (fun x => x != 0)).Nodup) ∧
    (∀ i ∈ List.range 9, ∀ j ∈ List.range 9,
      ((regionCells b (i : Int) (j : Int)).filter (fun x => x != 0)).Nodup))).1
    r.toNat (List.mem_range.mpr (by omega))
  rw [Int.toNat_of_nonneg hr0] at h
  exact h.1

theorem invariantStd_col (b : Board) (hinv : invariantStd b = true) (c : Int)
    (hc0 : 0 ≤ c) (hc9 : c < 9) :
    ((colList b c).filter (fun x => x != 0)).Nodup := by
  have h := ((by simpa [invariantStd, List.all_eq_true] using hinv :
    (∀ i ∈ List.range 9, ((rowList b (i : Int)).filter (fun x => x != 0)).Nodup ∧
      ((colList b (i : Int)).filter (fun x => x != 0)).Nodup) ∧
    (∀ i ∈ List.range 9, ∀ j ∈ List.range 9,
      ((regionCells b (i : Int) (j : Int)).filter (fun x => x != 0)).Nodup))).1
    c.toNat (List.mem_range.mpr (by omega))
  rw [Int.toNat_of_nonneg hc0] at h
  exact h.2

theorem invariantStd_region (b : Board) (hinv : invariantStd b = true) (r c : Int)
    (hr0 : 0 ≤ r) (hr9 : r < 9) (hc0 : 0 ≤ c) (hc9 : c < 9) :
    ((regionCells b r c).filter (fun x => x != 0)).Nodup := by
  have h := ((by simpa [invariantStd, List.all_eq_true] using hinv :
    (∀ i ∈ List.range 9, ((rowList b (i : Int)).filter (fun x => x != 0)).Nodup ∧
      ((colList b (i : Int)).filter (fun x => x != 0)).Nodup) ∧
    (∀ i ∈ List.range 9, ∀ j ∈ List.range 9,
      ((regionCells b (i : Int) (j : Int)).filter (fun x => x != 0)).Nodup))).2
    r.toNat (List.mem_range.mpr (by omega)) c.toNat (List.mem_range.mpr (by omega))
  rwa [Int.toNat_of_nonneg hr0, Int.toNat_of_nonneg hc0] at h

theorem countEq_le_one_of_nodup_filter (l : List Int) (v : Int) (hv : v ≠ 0)
    (h : (l.filter (fun x => x != 0)).Nodup) : countEq v l ≤ 1 := by
  have hfun : (fun x : Int => x == v) = (fun x : Int => (x == v) && (x != 0)) := by
    funext x
    by_cases hx : x = v
    · subst hx
      simp [hv]
    · simp [hx]
  have h1 : countEq v l = countEq v (l.filter (fun x => x != 0)) := by
    rw [countEq, countEq, List.countP_filter, hfun]
  have h2 : countEq v (l.filter (fun x => x != 0)) =
      (l.filter (fun x => x != 0)).count v := by
    rw [countEq, List.count_eq_countP]
  rw [h1, h2]
  exact List.nodup_iff_count_le_one.mp h v

theorem regionCells_entry (b : Board) (r c : Int) (i j : Nat) (hi : i < 3) (hj : j < 3)
    (hlt : i * 3 + j < (regionCells b r c).length) :
    (regionCells b r c)[i * 3 + j] =
      getCell b (r - r % 3 + (i : Int)) (c - c % 3 + (j : Int)) := by
  interval_cases i <;> interval_cases j <;> simp [regionCells]

theorem regionCells_getElem_self (b : Board) (r c : Int)
    (hlt : regionIdx r c < (regionCells b r c).length) :
    (regionCells b r c)[regionIdx r c] = getCell b r c := by
  have hr3a : 0 ≤ r % 3 := Int.emod_nonneg r (by decide)
  have hr3b : r % 3 < 3 := Int.emod_lt_of_pos r (by decide)
  have hc3a : 0 ≤ c % 3 := Int.emod_nonneg c (by decide)
  have hc3b : c % 3 < 3 := Int.emod_lt_of_pos c (by decide)
  have hkey := regionCells_entry b r c (r % 3).toNat (c % 3).toNat (by omega) (by omega)
    (by rw [length_regionCells]; omega)
  have he1 : r - r % 3 + (((r % 3).toNat : Nat) : Int) = r := by omega
  have he2 : c - c % 3 + (((c % 3).toNat : Nat) : Int) = c := by omega
  rw [he1, he2] at hkey
  exact hkey

/-- C10: on a standard grid satisfying the at-most-once-per-region
invariant, rewriting a non-given in-range cell with the value `v ∈ 1..9`
it already holds returns true and leaves the entire state unchanged. -/
theorem claim_C10 (s : State) (v r c : Int)
    (hvar : s.variant = Variant.standard) (hb : shapeOK s.board = true)
    (hinv : invariantStd s.board = true) (hg : (r, c) ∉ s.given)
    (hr0 : 0 ≤ r) (hr9 : r < 9) (hc0 : 0 ≤ c) (hc9 : c < 9)
    (hcell : getCell s.board r c = v) (hv1 : 1 ≤ v) (hv9 : v ≤ 9) :
    write s v r c = (true, s) := by
  have hsetid : setCell s.board r c v = s.board := setCell_self s.board r c v hb hcell
  have hvne : v ≠ 0 := by omega
  have hregion : (regionCells s.board r c).set (regionIdx r c) v = regionCells s.board r c := by
    have hval := regionCells_getElem_self s.board r c
      (by rw [length_regionCells]; exact regionIdx_lt r c)
    rw [hcell] at hval
    rw [← hval]
    exact set_getElem_self _ _ (by rw [length_regionCells]; exact regionIdx_lt r c)
  have hlegal : isMoveLegal s v r c = true := by
    have hstd : isMoveLegal s v r c = isMoveLegalStd s v r c := by
      unfold isMoveLegal
      rw [hvar]
    rw [hstd, isMoveLegalStd, if_neg hg, if_neg hvne, if_neg (by omega : ¬(9 : Int) < v),
      hsetid, hregion]
    have hrow : countEq v (rowList s.board r) ≤ 1 :=
      countEq_le_one_of_nodup_filter _ v hvne (invariantStd_row s.board hinv r hr0 hr9)
    have hcol : countEq v (colList s.board c) ≤ 1 :=
      countEq_le_one_of_nodup_filter _ v hvne (invariantStd_col s.board hinv c hc0 hc9)
    have hreg : countEq v (regionCells s.board r c) ≤ 1 :=
      countEq_le_one_of_nodup_filter _ v hvne
        (invariantStd_region s.board hinv r c hr0 hr9 hc0 hc9)
    rw [if_neg (by omega), if_neg (by omega), if_neg (by omega)]
  rw [write, if_pos hlegal, hsetid]

/-- A standard grid whose cell `(0, 0)` holds `5` as a solver-written
(non-given) value: reachable by one write on the empty grid. -/
def selfWriteState : State := { board := mWitness, given := [], variant := Variant.standard }

/-- Witness for C10: rewriting `(0, 0)` with its own value `5` succeeds and
changes nothing. -/
theorem claim_C10_witness : write selfWriteState 5 0 0 = (true, selfWriteState) :=
  claim_C10 selfWriteState 5 0 0 rfl (by decide) (by decide) (by decide) (by decide)
    (by decide) (by decide) (by decide) (by decide) (by decide) (by decide)

/-! ### Claim C4 -/

theorem diagList_setCell_offdiag (b : Board) (r c v : Int)
    (hr0 : 0 ≤ r) (hr9 : r < 9) (hc0 : 0 ≤ c) (hc9 : c < 9) (hne : r ≠ c) :
    diagList (setCell b r c v) = diagList b := by
  unfold diagList
  apply List.map_congr_left
  intro i hi
  rw [List.mem_range] at hi
  apply getCell_setCell_ne
  by_contra hcon
  push_neg at hcon
  obtain ⟨h1, h2⟩ := hcon
  rw [idx9_coe i hi, idx9_toNat r hr0 hr9] at h1
  rw [idx9_coe i hi, idx9_toNat c hc0 hc9] at h2
  exact hne (by omega)

theorem antiDiagList_setCell_offanti (b : Board) (r c v : Int)
    (hr0 : 0 ≤ r) (hr9 : r < 9) (hc0 : 0 ≤ c) (hc9 : c < 9) (hne : r + c ≠ 8) :
    antiDiagList (setCell b r c v) = antiDiagList b := by
  unfold antiDiagList
  apply List.map_congr_left
  intro i hi
  rw [List.mem_range] at hi
  apply getCell_setCell_ne
  by_contra hcon
  push_neg at hcon
  obtain ⟨h1, h2⟩ := hcon
  have h8 : idx9 (8 - (i : Int)) = 8 - i := by
    rw [idx9_toNat (8 - (i : Int)) (by omega) (by omega)]
    omega
  rw [h8, idx9_toNat r hr0 hr9] at h1
  rw [idx9_coe i hi, idx9_toNat c hc0 hc9] at h2
  exact hne (by omega)

/-- A well-shaped board with the value `1` twice on the main diagonal, at
`(0, 0)` and `(4, 4)`: different rows, columns and boxes, so it is accepted
verbatim by `DiagonalSudoku.__init__` (construction performs no duplicate
validation). -/
def bDupDiag : Board :=
  [1, 0, 0, 0, 0, 0, 0, 0, 0] ::
    (List.replicate 3 (List.replicate 9 (0 : Int)) ++
      ([0, 0, 0, 0, 1, 0, 0, 0, 0] :: List.replicate 4 (List.replicate 9 (0 : Int))))

/-- The state `DiagonalSudoku(bDupDiag)` constructs. -/
def dupDiagSudoku : State :=
  { board := bDupDiag, given := givenIndices bDupDiag, variant := Variant.diagonal }

/-- The state `DiagonalSudoku(mWitness)` constructs. -/
def diagWitness : State :=
  { board := mWitness, given := givenIndices mWitness, variant := Variant.diagonal }

/-- C4 (counterexample): the claim says legality at a position on neither
diagonal depends only on its row, column and box groups.  At `(2, 7)` —
off both diagonals, with `1` occurring nowhere in its row, column or box —
the diagonal grid `dupDiagSudoku` still rejects `1` because the source
always counts the candidate over both full diagonals and the board holds
`1` twice on the main diagonal. -/
theorem claim_C4_counterexample :
    isMoveLegal dupDiagSudoku 1 2 7 = false ∧
    isMoveLegalStd dupDiagSudoku 1 2 7 = true ∧
    (2 : Int) ≠ 7 ∧ (2 : Int) + 7 ≠ 8 ∧
    rowHasElsewhereSpec bDupDiag 1 2 7 = false ∧
    colHasElsewhereSpec bDupDiag 1 2 7 = false ∧
    boxHasElsewhereSpec bDupDiag 1 2 7 = false := by decide

/-- C4 (amended): the source consults both full diagonals on every
placement, but when the current board holds the candidate at most once on
each diagonal (the at-most-once invariant every legally-reached grid
satisfies), legality at an in-range position on neither diagonal coincides
with the standard (row/column/box only) check. -/
theorem claim_C4 (s : State) (v r c : Int)
    (hvar : s.variant = Variant.diagonal)
    (hr0 : 0 ≤ r) (hr9 : r < 9) (hc0 : 0 ≤ c) (hc9 : c < 9)
    (hmain : r ≠ c) (hanti : r + c ≠ 8)
    (hd : countEq v (diagList s.board) ≤ 1) (ha : countEq v (antiDiagList s.board) ≤ 1) :
    isMoveLegal s v r c = isMoveLegalStd s v r c := by
  have hdiag : isMoveLegal s v r c = isMoveLegalDiag s v r c := by
    unfold isMoveLegal
    rw [hvar]
  rw [hdiag, isMoveLegalDiag, isMoveLegalStd,
    diagList_setCell_offdiag s.board r c v hr0 hr9 hc0 hc9 hmain,
    antiDiagList_setCell_offanti s.board r c v hr0 hr9 hc0 hc9 hanti,
    if_neg (by omega : ¬1 < countEq v (diagList s.board)),
    if_neg (by omega : ¬1 < countEq v (antiDiagList s.board))]

/-- Witness for C4: on `DiagonalSudoku(mWitness)` (one `5` at `(0, 0)`, so
each diagonal holds `5` at most once), legality of `5` at `(2, 7)` equals
the standard check. -/
theorem claim_C4_witness :
    isMoveLegal diagWitness 5 2 7 = isMoveLegalStd diagWitness 5 2 7 :=
  claim_C4 diagWitness 5 2 7 rfl (by decide) (by decide) (by decide) (by decide)
    (by decide) (by decide) (by decide) (by decide)

/-! ### Claims C7 and C9: the solver -/

theorem rank_nonneg (p : Pos) (hp : InRange p) : 0 ≤ rank p := by
  obtain ⟨a1, a2, a3, a4⟩ := hp
  unfold rank
  omega

theorem rank_lt_81 (p : Pos) (hp : InRange p) : rank p < 81 := by
  obtain ⟨a1, a2, a3, a4⟩ := hp
  unfold rank
  omega

theorem rank_inj (p q : Pos) (hp : InRange p) (hq : InRange q) (h : rank p = rank q) : p = q := by
  obtain ⟨a1, a2, a3, a4⟩ := hp
  obtain ⟨b1, b2, b3, b4⟩ := hq
  unfold rank at h
  have h1 : p.1 = q.1 := by omega
  have h2 : p.2 = q.2 := by omega
  exact Prod.ext h1 h2

theorem navStep_back (row col : Int) :
    navStep row col (-1) = if col = 0 then (row - 1, (8 : Int)) else (row, col - 1) := by
  unfold navStep
  norm_num

theorem rank_navStep_back (row col : Int) :
    rank (navStep row col (-1)) = rank (row, col) - 1 := by
  rw [navStep_back]
  split_ifs with h <;> simp [rank] <;> omega

/-- Backward navigation (`_next_row_column` with direction `-1`): the result
is the nearest non-given position strictly before the cursor in row-major
order — every position strictly between them is given. -/
theorem nextRowColumnFuel_back (given : List Pos) (hg : ∀ p ∈ given, InRange p) :
    ∀ (fuel : Nat) (row col : Int), InRange (row, col) →
      (rank (row, col)).toNat + 1 ≤ fuel →
      nextRowColumnFuel given fuel row col (-1) ∉ given ∧
      rank (nextRowColumnFuel given fuel row col (-1)) < rank (row, col) ∧
      ∀ p : Pos, InRange p →
        rank (nextRowColumnFuel given fuel row col (-1)) < rank p →
        rank p < rank (row, col) → p ∈ given := by
  intro fuel
  induction fuel with
  | zero =>
    intro row col hin hf
    exact absurd hf (by omega)
  | succ n ih =>
    intro row col hin hf
    have hrankstep : rank (navStep row col (-1)) = rank (row, col) - 1 :=
      rank_navStep_back row col
    rw [nextRowColumnFuel]
    by_cases hpg : navStep row col (-1) ∈ given
    · rw [if_pos hpg]
      have hpin : InRange (navStep row col (-1)) := hg _ hpg
      have hpin' : InRange ((navStep row col (-1)).1, (navStep row col (-1)).2) := hpin
      have hrk0 : 0 ≤ rank (navStep row col (-1)) := rank_nonneg _ hpin
      have hfn : (rank ((navStep row col (-1)).1, (navStep row col (-1)).2)).toNat + 1 ≤ n := by
        have : rank ((navStep row col (-1)).1, (navStep row col (-1)).2) =
            rank (navStep row col (-1)) := rfl
        omega
      have ih' := ih (navStep row col (-1)).1 (navStep row col (-1)).2 hpin' hfn
      have heta : rank ((navStep row col (-1)).1, (navStep row col (-1)).2) =
          rank (navStep row col (-1)) := rfl
      refine ⟨ih'.1, by omega, ?_⟩
      intro q hq h1 h2
      by_cases hqp : rank q < rank (navStep row col (-1))
      · exact ih'.2.2 q hq h1 (by omega)
      · have hq_eq : rank q = rank (navStep row col (-1)) := by omega
        have : q = navStep row col (-1) := rank_inj q _ hq hpin hq_eq
        rw [this]
        exact hpg
    · rw [if_neg hpg]
      refine ⟨hpg, by omega, ?_⟩
      intro q hq h1 h2
      exact absurd (by omega : rank q < rank q) (lt_irrefl _)

theorem nextRowColumn_back (given : List Pos) (hg : ∀ p ∈ given, InRange p)
    (row col : Int) (hin : InRange (row, col)) :
    nextRowColumn given row col (-1) ∉ given ∧
    rank (nextRowColumn given row col (-1)) < rank (row, col) ∧
    ∀ p : Pos, InRange p → rank (nextRowColumn given row col (-1)) < rank p →
      rank p < rank (row, col) → p ∈ given := by
  have h81 := rank_lt_81 (row, col) hin
  have h0 := rank_nonneg (row, col) hin
  exact nextRowColumnFuel_back given hg 100 row col hin (by omega)

theorem isMoveLegal_zero (s : State) (row col : Int) (h : (row, col) ∉ s.given) :
    isMoveLegal s 0 row col = true := by
  rw [isMoveLegal]
  cases s.variant
  · rw [isMoveLegalStd, if_neg h, if_pos rfl]
  · rw [isMoveLegalDiag, if_neg h, if_pos rfl]

theorem solveLoop_succ (fuel : Nat) (s : State) (row col number : Int) :
    solveLoop (fuel + 1) s row col number =
      if isSolved s then some s
      else
        if (write s number row col).1 then
          solveLoop fuel (write s number row col).2
            (nextRowColumn (write s number row col).2.given row col 1).1
            (nextRowColumn (write s number row col).2.given row col 1).2 1
        else if number < 9 then
          solveLoop fuel s row col (number + 1)
        else
          solveLoop fuel (write s 0 row col).2
            (nextRowColumn (write s 0 row col).2.given row col (-1)).1
            (nextRowColumn (write s 0 row col).2.given row col (-1)).2
            (getCell (write s 0 row col).2.board
              (nextRowColumn (write s 0 row col).2.given row col (-1)).1
              (nextRowColumn (write s 0 row col).2.given row col (-1)).2 + 1) := by
  rw [solveLoop]

/-- C7: in the iterative solver, when the grid is unsolved and trial 9 fails
at the current (non-given) cursor, the loop clears the current cell, moves
the cursor to the nearest non-given position strictly before it in row-major
order (skipping given cells), and continues with trial equal to the value
now held by that predecessor plus one. -/
theorem claim_C7 (s : State) (row col : Int) (fuel : Nat)
    (hg : ∀ p ∈ s.given, InRange p) (hin : InRange (row, col))
    (hcur : (row, col) ∉ s.given) (hns : isSolved s = false)
    (hfail : isMoveLegal s 9 row col = false) :
    solveLoop (fuel + 1) s row col 9 =
      solveLoop fuel { s with board := setCell s.board row col 0 }
        (nextRowColumn s.given row col (-1)).1
        (nextRowColumn s.given row col (-1)).2
        (getCell (setCell s.board row col 0)
          (nextRowColumn s.given row col (-1)).1
          (nextRowColumn s.given row col (-1)).2 + 1) ∧
    nextRowColumn s.given row col (-1) ∉ s.given ∧
    rank (nextRowColumn s.given row col (-1)) < rank (row, col) ∧
    (∀ p : Pos, InRange p → rank (nextRowColumn s.given row col (-1)) < rank p →
      rank p < rank (row, col) → p ∈ s.given) := by
  have hwr : write s 9 row col = (false, s) := by
    rw [write, if_neg (by rw [hfail]; simp)]
  have hw0 : write s 0 row col = (true, { s with board := setCell s.board row col 0 }) := by
    rw [write, if_pos (isMoveLegal_zero s row col hcur)]
  have hnav := nextRowColumn_back s.given hg row col hin
  refine ⟨?_, hnav.1, hnav.2.1, hnav.2.2⟩
  rw [solveLoop_succ, if_neg (by rw [hns]; simp), hwr, hw0]
  norm_num

/-- A 9×9 board with a single `9` at `(0, 0)`. -/
def bNine : Board :=
  [9, 0, 0, 0, 0, 0, 0, 0, 0] :: List.replicate 8 (List.replicate 9 (0 : Int))

/-- The state `Sudoku(bNine)` constructs. -/
def stNine : State :=
  { board := bNine, given := givenIndices bNine, variant := Variant.standard }

/-- Witness for C7: on the grid with the given `9` at `(0, 0)`, trial 9 at
cursor `(0, 1)` fails (row conflict) and the loop backtracks to `(-1, 8)`
past the grid start, there being no earlier non-given cell. -/
theorem claim_C7_witness :
    solveLoop 1 stNine 0 1 9 =
      solveLoop 0 { stNine with board := setCell stNine.board 0 1 0 }
        (nextRowColumn stNine.given 0 1 (-1)).1
        (nextRowColumn stNine.given 0 1 (-1)).2
        (getCell (setCell stNine.board 0 1 0)
          (nextRowColumn stNine.given 0 1 (-1)).1
          (nextRowColumn stNine.given 0 1 (-1)).2 + 1) ∧
    nextRowColumn stNine.given 0 1 (-1) ∉ stNine.given ∧
    rank (nextRowColumn stNine.given 0 1 (-1)) < rank (0, 1) ∧
    (∀ p : Pos, InRange p → rank (nextRowColumn stNine.given 0 1 (-1)) < rank p →
      rank p < rank (0, 1) → p ∈ stNine.given) :=
  claim_C7 stNine 0 1 0 (by decide) (by decide) (by decide) (by decide) (by decide)

/-- C9: the solver consumes no randomness — embedded as a pure function of
the grid state (unlike the generator, it takes no `Rand` argument), so two
runs from equal states (same board, given set and variant) produce equal
final states. -/
theorem claim_C9 (fuel : Nat) (s₁ s₂ : State) (h : s₁ = s₂) :
    solve fuel s₁ = solve fuel s₂ := by
  rw [h]

/-- Witness for C9 at a concrete state. -/
theorem claim_C9_witness : solve 3 stWitness = solve 3 stWitness :=
  claim_C9 3 stWitness stWitness rfl

/-! ### Claim C8 -/

theorem mkSudoku_variant (v : Variant) (b : Board) (s : State)
    (h : mkSudoku v b = some s) : s.variant = v := by
  unfold mkSudoku at h
  by_cases hsh : shapeOK b = true
  · rw [if_pos hsh] at h
    obtain rfl := (Option.some.inj h).symm
    rfl
  · rw [if_neg hsh] at h
    cases h

theorem makerPipeline_ok (rnd : Rand) (fuel hints : Nat) (v : Variant) (bi : Board × Nat)
    (r : Except String State) (h : makerPipeline rnd fuel hints v bi = some r) :
    ∃ st, r = Except.ok st ∧ st.variant = v := by
  unfold makerPipeline at h
  split at h
  · cases h
  rename_i sud hmk
  split at h
  · cases h
  rename_i solved hs
  split at h
  · cases h
  rename_i removed hrm
  split at h
  · cases h
  rename_i final hmk2
  obtain rfl : Except.ok final = r := Option.some.inj h
  exact ⟨final, rfl, mkSudoku_variant v removed.board final hmk2⟩

/-- C8: whenever `create_random_sudoku` returns, the result is the
`ValueError` (`UnsupportedVariant`) iff the variant token is neither
`"standard"` nor `"diagonal"`; for `"standard"` the returned grid carries
the standard rules and for `"diagonal"` the diagonal rules. -/
theorem claim_C8 (rnd : Rand) (fuel hints : Nat) (t : String) (r : Except String State)
    (h : createRandomSudoku rnd fuel hints t = some r) :
    ((∃ e, r = Except.error e) ↔ (t ≠ "standard" ∧ t ≠ "diagonal")) ∧
    (∀ st, r = Except.ok st →
      st.variant = (if t = "standard" then Variant.standard else Variant.diagonal)) := by
  unfold createRandomSudoku at h
  split at h
  · cases h
  rename_i bi hcb
  split at h
  · rename_i ht
    obtain ⟨st, rfl, hvar⟩ := makerPipeline_ok rnd fuel hints Variant.standard bi r h
    constructor
    · constructor
      · rintro ⟨e, he⟩
        cases he
      · intro hbad
        exact absurd ht hbad.1
    · intro st' hst
      obtain rfl : st = st' := Except.ok.inj hst
      rw [hvar, if_pos ht]
  split at h
  · rename_i hns ht
    obtain ⟨st, rfl, hvar⟩ := makerPipeline_ok rnd fuel hints Variant.diagonal bi r h
    constructor
    · constructor
      · rintro ⟨e, he⟩
        cases he
      · intro hbad
        exact absurd ht hbad.2
    · intro st' hst
      obtain rfl : st = st' := Except.ok.inj hst
      rw [hvar, if_neg hns]
  rename_i hns hnd
  obtain rfl : Except.error (t ++ " is not a supported sudoku type.") = r := Option.some.inj h
  constructor
  · constructor
    · intro _
      exact ⟨hns, hnd⟩
    · intro _
      exact ⟨_, rfl⟩
  · intro st hst
    cases hst

/-- The concrete random source used by the generator counterexample and
witnesses: the identity shuffle, seed draws on the diagonal cells
`(0, 0) … (7, 7)`, and every later draw constantly `(0, 0)`. -/
def rndCex : Rand :=
  { perm := [1, 2, 3, 4, 5, 6, 7, 8, 9],
    draws := fun i => if i < 8 then (i, i) else (0, 0) }

/-- Witness for C8: the token `"bogus"` makes `create_random_sudoku` raise
the `ValueError` after seeding the board. -/
theorem claim_C8_witness :
    (∃ e, (Except.error ("bogus" ++ " is not a supported sudoku type.") :
        Except String State) = Except.error e) ↔
      ("bogus" ≠ "standard" ∧ "bogus" ≠ "diagonal") :=
  (claim_C8 rndCex 8 17 "bogus" (Except.error ("bogus" ++ " is not a supported sudoku type."))
    (by rfl)).1

/-! ### Claim C1: cell counting -/

/-- The number of non-zero (filled) cells of a board. -/
def countNonzero (b : Board) : Nat :=
  (b.map (fun row => row.countP (fun x => x != 0))).sum

/-- The number of zero (empty) cells of a board. -/
def countZero (b : Board) : Nat :=
  (b.map (fun row => row.countP (fun x => x == 0))).sum

theorem sum_set_add (l : List Nat) (i : Nat) (x : Nat) (h : i < l.length) :
    (l.set i x).sum + l[i] = l.sum + x := by
  induction l generalizing i with
  | nil => simp at h
  | cons a t ih =>
    cases i with
    | zero => simp [List.sum_cons]; omega
    | succ k =>
      have hk : k < t.length := by simpa using h
      have := ih k hk
      simp only [List.set, List.sum_cons, List.getElem_cons_succ]
      omega

theorem sum_map_add {α : Type} (l : List α) (f g : α → Nat) :
    (l.map f).sum + (l.map g).sum = (l.map (fun x => f x + g x)).sum := by
  induction l with
  | nil => rfl
  | cons a t ih => simp only [List.map_cons, List.sum_cons]; omega

theorem bne_zero_eq (x : Int) : (decide ¬((x == 0) = true)) = (x != 0) := by
  by_cases h : x = 0 <;> simp [h]

theorem countP_zero_add_nonzero (l : List Int) :
    l.countP (fun x => x == 0) + l.countP (fun x => x != 0) = l.length := by
  have h := List.length_eq_countP_add_countP (fun x : Int => x == 0) l
  have h2 : (fun a : Int => decide ¬((a == 0) = true)) = (fun x : Int => x != 0) := by
    funext x
    exact bne_zero_eq x
  rw [h2] at h
  omega

theorem countZero_add_countNonzero (b : Board) (hb : shapeOK b = true) :
    countZero b + countNonzero b = 81 := by
  obtain ⟨hl, hrows⟩ := (shapeOK_iff b).mp hb
  unfold countZero countNonzero
  rw [sum_map_add]
  have hmap : b.map (fun x => x.countP (fun y => y == 0) + x.countP (fun y => y != 0)) =
      b.map (fun _ => 9) := by
    apply List.map_congr_left
    intro row hrow
    rw [countP_zero_add_nonzero, hrows row hrow]
  rw [hmap, List.map_const', List.sum_replicate, hl]
  rfl

theorem countNonzero_setCell_zero (b : Board) (r c : Int) (hb : shapeOK b = true)
    (hnz : getCell b r c ≠ 0) :
    countNonzero (setCell b r c 0) + 1 = countNonzero b := by
  obtain ⟨hl, hrows⟩ := (shapeOK_iff b).mp hb
  have hri : idx9 r < b.length := by rw [hl]; exact idx9_lt r
  have hrowlen : (rowList b r).length = 9 := length_rowList b r hb
  have hci : idx9 c < (rowList b r).length := by rw [hrowlen]; exact idx9_lt c
  have hrow : rowList b r = b[idx9 r] := by
    rw [rowList, List.getElem?_eq_getElem hri]
    rfl
  have hval : (rowList b r)[idx9 c] = getCell b r c := (getCell_eq_getElem b r c hb hci).symm
  -- the modified row loses exactly one non-zero entry
  have hcount : ((rowList b r).set (idx9 c) 0).countP (fun x => x != 0) + 1 =
      (rowList b r).countP (fun x => x != 0) := by
    rw [List.countP_set _ _ _ _ hci, hval,
      if_pos (by simp [hnz] : ((getCell b r c != 0) = true)),
      if_neg (by simp : ¬(((0 : Int) != 0) = true))]
    have hpos : 0 < (rowList b r).countP (fun x => x != 0) := by
      rw [List.countP_pos_iff]
      refine ⟨getCell b r c, ?_, by simp [hnz]⟩
      rw [← hval]
      exact List.getElem_mem hci
    omega
  unfold countNonzero
  rw [setCell, List.map_set]
  have hsum := sum_set_add (b.map (fun row => row.countP (fun x => x != 0))) (idx9 r)
    (((rowList b r).set (idx9 c) 0).countP (fun x => x != 0))
    (by rw [List.length_map]; exact hri)
  have hmaplen : idx9 r < (b.map (fun row => row.countP (fun x => x != 0))).length := by
    rw [List.length_map]
    exact hri
  have hget : (b.map (fun row => row.countP (fun x => x != 0)))[idx9 r] =
      (rowList b r).countP (fun x => x != 0) := by
    rw [List.getElem_map, hrow]
  rw [hget] at hsum
  omega

theorem rowList_eq_getElem (b : Board) (i : Nat) (hi : i < b.length) (h9 : i < 9) :
    rowList b (i : Int) = b[i] := by
  rw [rowList, idx9_coe i h9, List.getElem?_eq_getElem hi]
  rfl

theorem filterMap_range_length (l : List Int) :
    ∀ (f : Nat → Pos),
      ((List.range l.length).filterMap (fun j =>
        if (l[j]?).getD 0 ≠ 0 then some (f j) else none)).length =
      l.countP (fun x => x != 0) := by
  induction l with
  | nil => intro f; rfl
  | cons a t ih =>
    intro f
    rw [List.length_cons, List.range_succ_eq_map]
    have hcomp : ((fun j => if ((a :: t)[j]?).getD 0 ≠ 0 then some (f j) else none) ∘ Nat.succ) =
        (fun j => if (t[j]?).getD 0 ≠ 0 then some ((f ∘ Nat.succ) j) else none) := by
      funext j
      simp only [Function.comp, List.getElem?_cons_succ]
    by_cases ha : a ≠ 0
    · rw [@List.filterMap_cons_some Nat Pos
        (fun j => if ((a :: t)[j]?).getD 0 ≠ 0 then some (f j) else none) 0
        (List.map Nat.succ (List.range t.length)) (f 0) (by simp [ha]),
        List.filterMap_map, hcomp, List.length_cons, ih (f ∘ Nat.succ), List.countP_cons]
      simp [ha]
    · rw [@List.filterMap_cons_none Nat Pos
        (fun j => if ((a :: t)[j]?).getD 0 ≠ 0 then some (f j) else none) 0
        (List.map Nat.succ (List.range t.length)) (by simp [ha]),
        List.filterMap_map, hcomp, ih (f ∘ Nat.succ), List.countP_cons]
      simp [ha]

theorem length_givenIndices (b : Board) (hb : shapeOK b = true) :
    (givenIndices b).length = countNonzero b := by
  obtain ⟨hl, hrows⟩ := (shapeOK_iff b).mp hb
  unfold givenIndices countNonzero
  rw [List.length_flatten, List.map_map]
  congr 1
  apply List.ext_getElem
  · simp [hl]
  · intro i h1 h2
    have hi : i < 9 := by simpa using h1
    have hib : i < b.length := by omega
    rw [List.getElem_map, List.getElem_map, List.getElem_range]
    have hrow : rowList b (i : Int) = b[i] := rowList_eq_getElem b i hib hi
    have hcong : ∀ j ∈ List.range 9,
        (if getCell b (i : Int) (j : Int) ≠ 0 then some ((i : Int), (j : Int)) else none) =
        (if ((rowList b (i : Int))[j]?).getD 0 ≠ 0 then some ((i : Int), (j : Int)) else none) := by
      intro j hj
      rw [List.mem_range] at hj
      have : getCell b (i : Int) (j : Int) = ((rowList b (i : Int))[j]?).getD 0 := by
        rw [getCell, idx9_coe j hj]
      rw [this]
    have hlen9 : (9 : Nat) = (rowList b (i : Int)).length := (length_rowList b (i : Int) hb).symm
    calc (List.length ∘ fun (i : Nat) => (List.range 9).filterMap (fun (j : Nat) =>
            if getCell b (i : Int) (j : Int) ≠ 0 then some ((i : Int), (j : Int)) else none)) i
        = ((List.range 9).filterMap (fun (j : Nat) =>
            if getCell b (i : Int) (j : Int) ≠ 0 then some ((i : Int), (j : Int)) else none)).length := rfl
      _ = ((List.range (rowList b (i : Int)).length).filterMap (fun (j : Nat) =>
            if ((rowList b (i : Int))[j]?).getD 0 ≠ 0 then some ((i : Int), (j : Int)) else none)).length := by
            rw [List.filterMap_congr hcong, hlen9]
      _ = (rowList b (i : Int)).countP (fun x => x != 0) :=
            filterMap_range_length (rowList b (i : Int)) (fun j => ((i : Int), (j : Int)))
      _ = b[i].countP (fun x => x != 0) := by rw [hrow]

/-! ### Claim C1: the removal loop -/

theorem removeNumbersLoop_zero (rnd : Rand) (i : Nat) (s : State) (n : Nat) :
    removeNumbersLoop rnd 0 i s n = if n = 0 then some s else none := by
  rw [removeNumbersLoop]

theorem removeNumbersLoop_succ (rnd : Rand) (fuel i : Nat) (s : State) (n : Nat) :
    removeNumbersLoop rnd (fuel + 1) i s n =
      if n = 0 then some s
      else if getCell s.board (drawPos rnd i).1 (drawPos rnd i).2 ≠ 0 then
        removeNumbersLoop rnd fuel (i + 1) (write s 0 (drawPos rnd i).1 (drawPos rnd i).2).2
          (if (write s 0 (drawPos rnd i).1 (drawPos rnd i).2).1 then n - 1 else n)
      else removeNumbersLoop rnd fuel (i + 1) s n := by
  rw [removeNumbersLoop]

theorem mkSudoku_given (v : Variant) (b : Board) (s : State)
    (h : mkSudoku v b = some s) : s.given = givenIndices b ∧ s.board = b := by
  unfold mkSudoku at h
  by_cases hsh : shapeOK b = true
  · rw [if_pos hsh] at h
    obtain rfl := (Option.some.inj h).symm
    exact ⟨rfl, rfl⟩
  · rw [if_neg hsh] at h
    cases h

/-- Partial correctness of the removal loop: whenever it returns, it has
performed exactly `n` successful removals, each turning one non-zero cell to
zero; the drawn positions are in `[0,8]²` so no aliasing occurs, and the
given set and variant are untouched. -/
theorem removeLoop_count (rnd : Rand) :
    ∀ (fuel i : Nat) (s : State) (n : Nat) (s' : State),
      shapeOK s.board = true →
      removeNumbersLoop rnd fuel i s n = some s' →
      countNonzero s'.board + n = countNonzero s.board ∧ shapeOK s'.board = true ∧
      s'.given = s.given ∧ s'.variant = s.variant := by
  intro fuel
  induction fuel with
  | zero =>
    intro i s n s' hb h
    rw [removeNumbersLoop_zero] at h
    by_cases hn : n = 0
    · rw [if_pos hn] at h
      obtain rfl := Option.some.inj h
      subst hn
      exact ⟨rfl, hb, rfl, rfl⟩
    · rw [if_neg hn] at h
      cases h
  | succ fuel ih =>
    intro i s n s' hb h
    rw [removeNumbersLoop_succ] at h
    by_cases hn : n = 0
    · rw [if_pos hn] at h
      obtain rfl := Option.some.inj h
      subst hn
      exact ⟨rfl, hb, rfl, rfl⟩
    · rw [if_neg hn] at h
      set p := drawPos rnd i with hp
      by_cases hc : getCell s.board p.1 p.2 ≠ 0
      · rw [if_pos hc] at h
        by_cases hg : (p.1, p.2) ∈ s.given
        · rw [write_at_given s 0 _ _ hg] at h
          have h' : removeNumbersLoop rnd fuel (i + 1) s n = some s' := h
          exact ih (i + 1) s n s' hb h'
        · have hleg : isMoveLegal s 0 p.1 p.2 = true := isMoveLegal_zero s _ _ hg
          have hwr : write s 0 p.1 p.2 = (true, { s with board := setCell s.board p.1 p.2 0 }) := by
            rw [write, if_pos hleg]
          rw [hwr] at h
          have h' : removeNumbersLoop rnd fuel (i + 1)
              { s with board := setCell s.board p.1 p.2 0 } (n - 1) = some s' := h
          have hb' : shapeOK (setCell s.board p.1 p.2 0) = true :=
            shapeOK_setCell _ _ _ _ hb
          have hrec := ih (i + 1) _ (n - 1) s' hb' h'
          have hrec1 : countNonzero s'.board + (n - 1) =
              countNonzero (setCell s.board p.1 p.2 0) := hrec.1
          have hcnt : countNonzero (setCell s.board p.1 p.2 0) + 1 =
              countNonzero s.board := countNonzero_setCell_zero s.board _ _ hb hc
          refine ⟨by omega, hrec.2.1, hrec.2.2.1, hrec.2.2.2⟩
      · rw [if_neg hc] at h
        exact ih (i + 1) s n s' hb h

/-- C1 (amended): for every random stream, every starting draw index and
every `hints ≤ 81`, IF the removal loop terminates on a fully-filled grid,
THEN it has performed exactly `81 - hints` successful removals: the
resulting board has exactly `hints` non-zero cells and `81 - hints` zero
cells, the given set is unchanged, and the re-constructed grid records
exactly `hints` given cells.  (Termination itself does not hold for every
stream — see the counterexample — and is impossible for `hints < 8`, since
the 8 seeded given cells can never be removed.) -/
theorem claim_C1 (rnd : Rand) (fuel i : Nat) (s : State) (hints : Nat) (s' : State)
    (hh : hints ≤ 81) (hb : shapeOK s.board = true) (hfull : countNonzero s.board = 81)
    (h : removeNumbers rnd fuel i s hints = some s') :
    countNonzero s'.board = hints ∧ countZero s'.board = 81 - hints ∧
    s'.given = s.given ∧
    ∀ v s'', mkSudoku v s'.board = some s'' → s''.given.length = hints := by
  have hL := removeLoop_count rnd fuel i s (81 - hints) s' hb h
  have hL1 := hL.1
  have hcount : countNonzero s'.board = hints := by omega
  refine ⟨hcount, ?_, hL.2.2.1, ?_⟩
  · have hz := countZero_add_countNonzero s'.board hL.2.1
    omega
  · intro v s'' hmk
    rw [(mkSudoku_given v _ _ hmk).1, length_givenIndices s'.board hL.2.1, hcount]

/-- A fully-filled 9×9 board (all 81 cells non-zero). -/
def bFull : Board := List.replicate 9 ([1, 2, 3, 4, 5, 6, 7, 8, 9] : List Int)

/-- A solved-shaped state over `bFull` whose only given cell is `(0, 0)`. -/
def stFull : State :=
  { board := bFull, given := [((0 : Int), (0 : Int))], variant := Variant.standard }

/-- A stream that always draws the removable cell `(0, 1)`. -/
def rndW : Rand := { perm := [], draws := fun _ => (0, 1) }

/-- `stFull` after the single removal at `(0, 1)`. -/
def stRemovedW : State :=
  { board := setCell bFull 0 1 0, given := [((0 : Int), (0 : Int))],
    variant := Variant.standard }

/-- Witness for C1: removing down to 80 hints on the full board performs
exactly one removal and leaves 80 filled and 1 empty cell. -/
theorem claim_C1_witness :
    countNonzero stRemovedW.board = 80 ∧ countZero stRemovedW.board = 81 - 80 ∧
    stRemovedW.given = stFull.given ∧ (givenIndices stRemovedW.board).length = 80 := by
  have h := claim_C1 rndW 1 0 stFull 80 stRemovedW (by omega) (by decide) (by decide) (by decide)
  refine ⟨h.1, h.2.1, h.2.2.1, ?_⟩
  exact h.2.2.2 Variant.standard
    { board := stRemovedW.board, given := givenIndices stRemovedW.board,
      variant := Variant.standard }
    (by rw [mkSudoku, if_pos (by decide)])

/-! ### Claim C1: non-termination for adversarial streams -/

theorem placeSeeds_nil (rnd : Rand) (fuel i : Nat) (b : Board) :
    placeSeeds rnd fuel i b [] = some (b, i) := by
  rw [placeSeeds]

theorem placeSeeds_cons_zero (rnd : Rand) (i : Nat) (b : Board) (v : Int) (rest : List Int) :
    placeSeeds rnd 0 i b (v :: rest) = none := by
  rw [placeSeeds]

theorem placeSeeds_cons (rnd : Rand) (fuel i : Nat) (b : Board) (v : Int) (rest : List Int) :
    placeSeeds rnd (fuel + 1) i b (v :: rest) =
      if getCell b (drawPos rnd i).1 (drawPos rnd i).2 = 0 then
        placeSeeds rnd fuel (i + 1) (setCell b (drawPos rnd i).1 (drawPos rnd i).2 v) rest
      else placeSeeds rnd fuel (i + 1) b (v :: rest) := by
  rw [placeSeeds]

theorem getCell_eq_of_idx (b : Board) (r c r' c' : Int)
    (h1 : idx9 r = idx9 r') (h2 : idx9 c = idx9 c') :
    getCell b r c = getCell b r' c' := by
  unfold getCell rowList
  rw [h1, h2]

theorem placeSeeds_preserve (rnd : Rand) :
    ∀ (fuel i : Nat) (b : Board) (nums : List Int) (b' : Board) (i' : Nat),
      placeSeeds rnd fuel i b nums = some (b', i') →
      ∀ r c : Int, getCell b r c ≠ 0 → getCell b' r c ≠ 0 := by
  intro fuel
  induction fuel with
  | zero =>
    intro i b nums b' i' h r c hnz
    cases nums with
    | nil =>
      rw [placeSeeds_nil] at h
      obtain ⟨rfl, rfl⟩ : b = b' ∧ i = i' := by
        have := Option.some.inj h
        exact ⟨congrArg Prod.fst this, congrArg Prod.snd this⟩
      exact hnz
    | cons v rest =>
      rw [placeSeeds_cons_zero] at h
      cases h
  | succ fuel ih =>
    intro i b nums b' i' h r c hnz
    cases nums with
    | nil =>
      rw [placeSeeds_nil] at h
      obtain ⟨rfl, rfl⟩ : b = b' ∧ i = i' := by
        have := Option.some.inj h
        exact ⟨congrArg Prod.fst this, congrArg Prod.snd this⟩
      exact hnz
    | cons v rest =>
      rw [placeSeeds_cons] at h
      by_cases hc : getCell b (drawPos rnd i).1 (drawPos rnd i).2 = 0
      · rw [if_pos hc] at h
        apply ih (i + 1) _ rest b' i' h r c
        by_cases hidx : idx9 r = idx9 (drawPos rnd i).1 ∧ idx9 c = idx9 (drawPos rnd i).2
        · exact absurd (getCell_eq_of_idx b r c _ _ hidx.1 hidx.2 ▸ hc ▸ hnz) (by
            intro hcon
            exact hcon rfl)
        · rw [getCell_setCell_ne b (drawPos rnd i).1 (drawPos rnd i).2 r c v
            (by tauto)]
          exact hnz
      · rw [if_neg hc] at h
        exact ih (i + 1) b (v :: rest) b' i' h r c hnz

theorem placeSeeds_index (rnd : Rand) :
    ∀ (fuel i : Nat) (b : Board) (nums : List Int) (b' : Board) (i' : Nat),
      placeSeeds rnd fuel i b nums = some (b', i') → i + nums.length ≤ i' := by
  intro fuel
  induction fuel with
  | zero =>
    intro i b nums b' i' h
    cases nums with
    | nil =>
      rw [placeSeeds_nil] at h
      have hii : i = i' := congrArg Prod.snd (Option.some.inj h)
      simp only [List.length_nil]
      omega
    | cons v rest =>
      rw [placeSeeds_cons_zero] at h
      cases h
  | succ fuel ih =>
    intro i b nums b' i' h
    cases nums with
    | nil =>
      rw [placeSeeds_nil] at h
      have hii : i = i' := congrArg Prod.snd (Option.some.inj h)
      simp only [List.length_nil]
      omega
    | cons v rest =>
      rw [placeSeeds_cons] at h
      by_cases hc : getCell b (drawPos rnd i).1 (drawPos rnd i).2 = 0
      · rw [if_pos hc] at h
        have := ih (i + 1) _ rest b' i' h
        simp only [List.length_cons]
        omega
      · rw [if_neg hc] at h
        have := ih (i + 1) b (v :: rest) b' i' h
        simp only [List.length_cons] at this ⊢
        omega

theorem createBoard_props (fuel : Nat) (bi : Board × Nat)
    (h : createBoard rndCex fuel = some bi) :
    getCell bi.1 0 0 ≠ 0 ∧ 8 ≤ bi.2 := by
  unfold createBoard at h
  have hdrop : rndCex.perm.dropLast = [1, 2, 3, 4, 5, 6, 7, 8] := rfl
  rw [hdrop] at h
  cases fuel with
  | zero =>
    rw [placeSeeds_cons_zero] at h
    cases h
  | succ f =>
    rw [placeSeeds_cons,
      if_pos (by decide : getCell emptyBoard (drawPos rndCex 0).1 (drawPos rndCex 0).2 = 0)]
      at h
    have h' : placeSeeds rndCex f 1
        (setCell emptyBoard (drawPos rndCex 0).1 (drawPos rndCex 0).2 1)
        [2, 3, 4, 5, 6, 7, 8] = some (bi.1, bi.2) := h
    constructor
    · exact placeSeeds_preserve rndCex f 1 _ _ bi.1 bi.2 h' 0 0 (by decide)
    · have hidx := placeSeeds_index rndCex f 1 _ _ bi.1 bi.2 h'
      simp at hidx
      omega

theorem solveLoop_zero (s : State) (row col number : Int) :
    solveLoop 0 s row col number = if isSolved s then some s else none := by
  rw [solveLoop]

theorem solveLoop_given :
    ∀ (fuel : Nat) (s : State) (row col number : Int) (s' : State),
      solveLoop fuel s row col number = some s' → s'.given = s.given := by
  intro fuel
  induction fuel with
  | zero =>
    intro s row col number s' h
    rw [solveLoop_zero] at h
    by_cases hs : isSolved s = true
    · rw [if_pos hs] at h
      obtain rfl := Option.some.inj h
      rfl
    · rw [if_neg hs] at h
      cases h
  | succ f ih =>
    intro s row col number s' h
    rw [solveLoop_succ] at h
    by_cases hs : isSolved s = true
    · rw [if_pos hs] at h
      obtain rfl := Option.some.inj h
      rfl
    · rw [if_neg hs] at h
      by_cases hw : (write s number row col).1 = true
      · rw [if_pos hw] at h
        rw [ih _ _ _ _ _ h, write_given]
      · rw [if_neg hw] at h
        by_cases hlt : number < 9
        · rw [if_pos hlt] at h
          exact ih _ _ _ _ _ h
        · rw [if_neg hlt] at h
          rw [ih _ _ _ _ _ h, write_given]

theorem solve_given (fuel : Nat) (s s' : State) (h : solve fuel s = some s') :
    s'.given = s.given := by
  unfold solve at h
  by_cases hs : isSolved s = true
  · rw [if_pos hs] at h
    obtain rfl := Option.some.inj h
    rfl
  · rw [if_neg hs] at h
    cases hgs : getStartRowColumn fuel s 0 0 with
    | none =>
      rw [hgs] at h
      have h' : (none : Option State) = some s' := h
      cases h'
    | some p =>
      rw [hgs] at h
      exact solveLoop_given fuel s p.1 p.2 1 s' h

/-- Once the stream keeps drawing a given (hence never-removable) cell, the
removal loop makes no progress: the counter never reaches zero, so the loop
returns `none` for every fuel — it runs forever in the source. -/
theorem removeLoop_stuck (rnd : Rand) (r0 c0 : Int) (j0 : Nat)
    (hdr : ∀ j, j0 ≤ j → drawPos rnd j = (r0, c0)) :
    ∀ (fuel i : Nat) (s : State) (n : Nat), j0 ≤ i → (r0, c0) ∈ s.given → n ≠ 0 →
      removeNumbersLoop rnd fuel i s n = none := by
  intro fuel
  induction fuel with
  | zero =>
    intro i s n hi hm hn
    rw [removeNumbersLoop_zero, if_neg hn]
  | succ f ih =>
    intro i s n hi hm hn
    have hd1 : (drawPos rnd i).1 = r0 := by rw [hdr i hi]
    have hd2 : (drawPos rnd i).2 = c0 := by rw [hdr i hi]
    rw [removeNumbersLoop_succ, if_neg hn, hd1, hd2]
    by_cases hc : getCell s.board r0 c0 ≠ 0
    · rw [if_pos hc, write_at_given s 0 r0 c0 hm]
      have hred : removeNumbersLoop rnd f (i + 1) ((false, s) : Bool × State).2
          (if ((false, s) : Bool × State).1 then n - 1 else n) =
          removeNumbersLoop rnd f (i + 1) s n := rfl
      rw [hred]
      exact ih (i + 1) s n (by omega) hm hn
    · rw [if_neg hc]
      exact ih (i + 1) s n (by omega) hm hn

theorem drawPos_rndCex_const (j : Nat) (hj : 8 ≤ j) :
    drawPos rndCex j = ((0 : Int), (0 : Int)) := by
  unfold drawPos
  simp only [rndCex]
  rw [if_neg (by omega : ¬j < 8)]
  rfl

/-- C1 (counterexample): the claim asserts `create_random_puzzle` terminates
for every `hints ∈ [0,81]` and every random stream.  With `hints = 80` and
the stream `rndCex` — which seeds the diagonal cells and afterwards draws
the seeded given cell `(0, 0)` forever — the removal loop never succeeds in
removing anything (a given cell cannot be written), so the whole generator
diverges: no fuel makes it return. -/
theorem claim_C1_counterexample :
    ¬∃ fuel : Nat, (createRandomSudoku rndCex fuel 80 "standard").isSome = true := by
  rintro ⟨fuel, hf⟩
  unfold createRandomSudoku at hf
  split at hf
  · simp at hf
  rename_i bi hcb
  have hprops := createBoard_props fuel bi hcb
  split at hf
  · unfold makerPipeline at hf
    split at hf
    · simp at hf
    rename_i sud hmk
    split at hf
    · simp at hf
    rename_i solved hsol
    split at hf
    · simp at hf
    rename_i removed hrm
    have hmem : ((0 : Int), (0 : Int)) ∈ solved.given := by
      rw [solve_given fuel sud solved hsol, (mkSudoku_given _ _ _ hmk).1, mem_givenIndices]
      exact ⟨by decide, hprops.1⟩
    have hstuck : removeNumbers rndCex fuel bi.2 solved 80 = none := by
      unfold removeNumbers
      exact removeLoop_stuck rndCex 0 0 8 drawPos_rndCex_const fuel bi.2 solved
        (81 - 80) hprops.2 hmem (by omega)
    rw [hstuck] at hrm
    cases hrm
  · rename_i hcontra
    exact absurd rfl hcontra

end Sudoku
